import Mathlib

/-!
# Verification of the Silver data-quality engine

Shallow embedding of the Silver-layer quality engine
(`src/silver/processor.py`, `src/silver/cleaner.py`, `src/silver/schemas.py`):
a configuration-driven pipeline that cleans, deduplicates, cross-validates
referential integrity and partitions rows into valid and quarantined sets.

Modelling conventions:
* A dataframe cell is `Option PValue`; `none` models a null (a CSV cell that is
  absent and a Python `None` both collapse to `none`).
* External libraries are modelled as oracle parameters: `dateutil.parser.parse`
  as a function from a `dayfirst` flag and a string to `Except String SDate`
  (the `Except.error` carries the exception message), `datetime.fromtimestamp`
  as a function from a rational timestamp to `SDate`, and `json.loads` of the
  `line_items_json` column as a function from a string to an optional list of
  JSON objects.
* Python dicts keep insertion order; they are modelled as association lists.
-/

namespace SystemZero

/-- A primitive cell value of a tabular column (what a Polars cell or a JSON
scalar can hold): a string, an integer, a rational (for floats), a boolean. -/
inductive PValue where
  | s (v : String)
  | i (v : Int)
  | q (v : Rat)
  | b (v : Bool)
deriving DecidableEq, Repr

/-- Python `str(v)` on a cell value (string rendering of numerics is
approximate; the claims only exercise it on strings). -/
def PValue.toStr : PValue → String
  | .s v => v
  | .i v => toString v
  | .q v => toString v
  | .b v => if v then "True" else "False"

/-- Python truthiness of a cell value (`bool(v)`). -/
def PValue.truthy : PValue → Bool
  | .s v => v ≠ ""
  | .i v => v ≠ 0
  | .q v => v ≠ 0
  | .b v => v

/-- `str.lower()` (ASCII, which is all the engine's match lists contain),
implemented structurally so that concrete runs reduce inside the kernel. -/
def strLower (s : String) : String := ⟨s.data.map Char.toLower⟩

/-- `str.upper()` (ASCII), structural. -/
def strUpper (s : String) : String := ⟨s.data.map Char.toUpper⟩

/-- Split a character list at every occurrence of `c` (the behaviour of
Python `str.split(c)` / `String.splitOn` for one-character separators). -/
def splitOnChar (c : Char) : List Char → List (List Char)
  | [] => [[]]
  | x :: xs =>
    match splitOnChar c xs with
    | [] => if x = c then [[], []] else [[x]]
    | h :: t => if x = c then [] :: h :: t else (x :: h) :: t

/-- `needle` is a prefix of the second list. -/
def listStartsWith : List Char → List Char → Bool
  | [], _ => true
  | _ :: _, [] => false
  | a :: as, b :: bs => a = b && listStartsWith as bs

/-- Python `needle in hay` on strings: some suffix of `hay` starts with
`needle`. -/
def listContainsSub (needle : List Char) : List Char → Bool
  | [] => needle.isEmpty
  | c :: cs => listStartsWith needle (c :: cs) || listContainsSub needle cs

/-- Strip leading and trailing whitespace (Python `str.strip()`),
structural. -/
def trimChars (s : String) : List Char :=
  ((s.data.dropWhile Char.isWhitespace).reverse.dropWhile Char.isWhitespace).reverse

/-- A cell: `none` is a null. -/
abbrev Cell := Option PValue

/-- One data row: association list from column name to cell value, in column
order. -/
structure DRow where
  cells : List (String × Cell)
deriving DecidableEq, Repr

/-- `row[f]` / `row.get(f)`: first binding wins, absent key reads as null. -/
def DRow.get (r : DRow) (f : String) : Cell :=
  match r.cells.lookup f with
  | some v => v
  | none => none

/-- Rewrite the cell stored under column `f` (used to state claim C7). -/
def DRow.set (r : DRow) (f : String) (g : Cell → Cell) : DRow :=
  ⟨r.cells.map fun kv => if kv.1 = f then (kv.1, g kv.2) else kv⟩

/-- Column dtype as far as the engine inspects it: Polars `String`/`Utf8`
versus anything else. -/
inductive DType where
  | str
  | other
deriving DecidableEq, Repr

/-- A dataframe: named, typed columns plus a row list. -/
structure DFrame where
  cols : List (String × DType)
  rows : List DRow
deriving DecidableEq, Repr

/-- `df.columns`. -/
def DFrame.colNames (df : DFrame) : List String := df.cols.map Prod.fst

/-- Dtype of a column, `none` when the column does not exist. -/
def DFrame.dtypeOf (df : DFrame) (f : String) : Option DType := df.cols.lookup f

/-- `df[f].dtype in (pl.String, pl.Utf8)`. -/
def DFrame.isStrCol (df : DFrame) (f : String) : Bool :=
  df.dtypeOf f = some DType.str

/-- `df.with_columns(expr.alias(f))` for a cell-wise expression: map one
column through a cell transformer, leaving the schema unchanged. -/
def DFrame.mapCol (df : DFrame) (f : String) (g : Cell → Cell) : DFrame :=
  ⟨df.cols, df.rows.map (·.set f g)⟩

/-- Retype one column (Polars changes the dtype when an expression yields a
different type, e.g. boolean normalization). -/
def DFrame.setDType (df : DFrame) (f : String) (t : DType) : DFrame :=
  ⟨df.cols.map (fun kv => if kv.1 = f then (kv.1, t) else kv), df.rows⟩

/-- A calendar date as produced by the external date parser. -/
structure SDate where
  y : Nat
  m : Nat
  d : Nat
deriving DecidableEq, Repr

/-- Left-pad to two digits. -/
def pad2 (n : Nat) : String := if n < 10 then "0" ++ toString n else toString n

/-- Left-pad to four digits. -/
def pad4 (n : Nat) : String :=
  if n < 10 then "000" ++ toString n
  else if n < 100 then "00" ++ toString n
  else if n < 1000 then "0" ++ toString n
  else toString n

/-- `strftime("%Y-%m-%d")`. -/
def SDate.toISO (dt : SDate) : String :=
  pad4 dt.y ++ "-" ++ pad2 dt.m ++ "-" ++ pad2 dt.d

/-- Strict chronological order on dates (`parsed.date() > date.today()`). -/
def SDate.before (a b : SDate) : Bool :=
  a.y < b.y || (a.y = b.y && (a.m < b.m || (a.m = b.m && a.d < b.d)))

/-- Oracle for `dateutil.parser.parse(s, dayfirst, fuzzy=False)`: the first
argument is the `dayfirst` flag (the engine always passes `False`, preferring
month-before-day on ambiguous numeric dates); an `Except.error` models the
raised exception, carrying `str(e)`. -/
abbrev DUParse := Bool → String → Except String SDate

/-- Oracle for `datetime.fromtimestamp(ts)` truncated to its calendar date
(the result depends on the local timezone, hence an oracle). -/
abbrev FromTs := Rat → SDate

/-- Schema-registry entry for one field of an entity
(`schemas.yaml`: `{..., foreign_key: target, clean: rule}`). -/
structure FieldDef where
  foreign_key : Option String := none
  clean : Option String := none
deriving DecidableEq, Repr

/-- Schema-registry entry for one entity. -/
structure SchemaDef where
  primary_key : Option String := none
  fields : List (String × FieldDef) := []
deriving DecidableEq, Repr

/-- Characters stripped by phone normalization — the regex class
`[\(\)\-\s\.\+]` of `_apply_cleaning` (`\s` is space, tab, newline, carriage
return, form feed, vertical tab). -/
def phoneStripChar (c : Char) : Bool :=
  c = '(' || c = ')' || c = '-' || c = '.' || c = '+' ||
  c = ' ' || c = '\t' || c = '\n' || c = '\r' || c = '\x0c' || c = '\x0b'

/-- `str.replace_all(r"[\(\)\-\s\.\+]", "")` on one cell. -/
def phoneNormCell : Cell → Cell
  | some (.s v) => some (.s ⟨v.toList.filter (fun c => !phoneStripChar c)⟩)
  | c => c

/-- `str.to_lowercase()` on one cell. -/
def lowerCell : Cell → Cell
  | some (.s v) => some (.s (strLower v))
  | c => c

/-- `str.to_uppercase()` on one cell. -/
def upperCell : Cell → Cell
  | some (.s v) => some (.s (strUpper v))
  | c => c

/-- Boolean normalization on one cell: recognized truthy strings map to
`True`, recognized falsy strings to `False`, everything else (nulls included)
to null — the `when/then/otherwise(lit(None))` chain of `_apply_cleaning`. -/
def boolNormCell : Cell → Cell
  | some (.s v) =>
    if strLower v ∈ ["true", "yes", "1", "y"] then some (.b true)
    else if strLower v ∈ ["false", "no", "0", "n"] then some (.b false)
    else none
  | _ => none

/-- `_normalize_date` as defined inline in `SilverProcessor._apply_cleaning`:
parse with `dayfirst=False`, render ISO, and return the value unchanged when
parsing fails (`map_elements` leaves nulls untouched). -/
def procNormalizeDate (du : DUParse) : Cell → Cell
  | none => none
  | some (.s v) =>
    if v = "" then some (.s v)
    else
      match du false v with
      | .ok d => some (.s d.toISO)
      | .error _ => some (.s v)
  | c => c

/-- `stats[field] = stats.get(field, 0) + 1` on an insertion-ordered dict. -/
def bumpCount (stats : List (String × Nat)) (k : String) : List (String × Nat) :=
  match stats.lookup k with
  | some _ => stats.map (fun kv => if kv.1 = k then (kv.1, kv.2 + 1) else kv)
  | none => stats ++ [(k, 1)]

/-- One iteration of the cleaning loop of `SilverProcessor._apply_cleaning`:
skip absent columns and fields without a `clean` rule, dispatch on the rule
name, transform only string-typed columns, and count the field once when a
transformation was applied.  Unknown rule names fall through the `elif` chain
silently. -/
def cleanField (du : DUParse) (df : DFrame) (stats : List (String × Nat))
    (fname : String) (fdef : FieldDef) : DFrame × List (String × Nat) :=
  if fname ∉ df.colNames then (df, stats)
  else
    match fdef.clean with
    | none => (df, stats)
    | some rule =>
      if rule = "lowercase" then
        if df.isStrCol fname then (df.mapCol fname lowerCell, bumpCount stats fname)
        else (df, stats)
      else if rule = "uppercase" then
        if df.isStrCol fname then (df.mapCol fname upperCell, bumpCount stats fname)
        else (df, stats)
      else if rule = "phone_normalize" then
        if df.isStrCol fname then (df.mapCol fname phoneNormCell, bumpCount stats fname)
        else (df, stats)
      else if rule = "boolean_normalize" then
        if df.isStrCol fname then
          ((df.mapCol fname boolNormCell).setDType fname .other, bumpCount stats fname)
        else (df, stats)
      else if rule = "date_iso" then
        if df.isStrCol fname then
          (df.mapCol fname (procNormalizeDate du), bumpCount stats fname)
        else (df, stats)
      else (df, stats)

/-- `SilverProcessor._apply_cleaning`: fold the cleaning loop over the declared
fields in order, returning the transformed frame and the `fields_cleaned`
statistics. -/
def applyCleaning (du : DUParse) (df : DFrame) (fields : List (String × FieldDef)) :
    DFrame × List (String × Nat) :=
  fields.foldl (fun acc p => cleanField du acc.1 acc.2 p.1 p.2) (df, [])

/-- Keep-first deduplication scan: drop any row whose primary-key cell was
already seen. -/
def dedupGo (pk : String) (seen : List Cell) : List DRow → List DRow
  | [] => []
  | r :: rs =>
    if r.get pk ∈ seen then dedupGo pk seen rs
    else r :: dedupGo pk (r.get pk :: seen) rs

/-- `df.unique(subset=[primary_key], keep="first")`, modelled as the
order-preserving keep-first scan (the earliest occurrence of each key wins). -/
def dedupKeyed (pk : String) (rows : List DRow) : List DRow := dedupGo pk [] rows

/-- Step 2 of `_process_source`: deduplicate only when a primary key is
declared (non-falsy) and actually is a column of the frame. -/
def dedupStep (pk : Option String) (df : DFrame) : DFrame :=
  match pk with
  | some k => if k ≠ "" ∧ k ∈ df.colNames then ⟨df.cols, dedupKeyed k df.rows⟩ else df
  | none => df

/-- The run-scoped key cache: entity name to the list of primary keys that
passed validation (the engine stores a Python set; only membership and
emptiness are ever consumed, so the insertion-ordered list is kept). -/
abbrev KeyCache := List (String × List String)

/-- `self._valid_keys.get(target, set())`. -/
def KeyCache.find (c : KeyCache) (t : String) : List String := (c.lookup t).getD []

/-- One diagnostic error entry `{field, type, msg}`. -/
structure ErrEntry where
  field : String
  etype : String
  msg : String
deriving DecidableEq, Repr

/-- The diagnostic message attached to a referential-integrity violation. -/
def riMsg (t f : String) (v : PValue) : String :=
  s!"No matching {t} record for {f}=" ++ v.toStr

/-- The referential-integrity check of one field on one row (step 3 of
`_process_source`): skipped when the field declares no foreign key, is not a
column, or the target's cache is empty; otherwise the row is flagged exactly
when the value is non-null, non-empty and absent from the cache. -/
def fkFieldError (cache : KeyCache) (cols : List String) (r : DRow)
    (f : String) (fd : FieldDef) : Option ErrEntry :=
  match fd.foreign_key with
  | none => none
  | some t =>
    if f ∈ cols ∧ cache.find t ≠ [] then
      match r.get f with
      | some v =>
        if v.toStr ≠ "" ∧ v.toStr ∉ cache.find t then
          some ⟨f, "referential_integrity", riMsg t f v⟩
        else none
      | none => none
    else none

/-- All referential-integrity errors attached to one row, in declared field
order (the `fk_errors[idx]` list). -/
def fkErrorsRow (fields : List (String × FieldDef)) (cache : KeyCache)
    (cols : List String) (r : DRow) : List ErrEntry :=
  fields.filterMap fun p => fkFieldError cache cols r p.1 p.2

/-- One quarantined record `{row_index, record, errors}`. -/
structure QRec where
  row_index : Nat
  record : List (String × Cell)
  errors : List ErrEntry
deriving DecidableEq, Repr

/-- A Pydantic entity validator: either the transformed record of
`model_validate(row).model_dump()` or the `ValidationError.errors()` list. -/
abbrev Validator := DRow → Except (List ErrEntry) DRow

/-- Where one post-dedup row is routed by step 5 of `_process_source`:
rows flagged by the FK check go straight to quarantine carrying only their
referential-integrity errors (field validation is not run); the rest run the
schema validator and land in the valid or the quarantine set. -/
inductive Routed where
  | valid (r : DRow)
  | quar (q : QRec)
deriving DecidableEq, Repr

/-- Route the row at index `i`. -/
def routeRow (validate : Validator) (orphErrs : DRow → List ErrEntry)
    (i : Nat) (r : DRow) : Routed :=
  if orphErrs r ≠ [] then .quar ⟨i, r.cells, orphErrs r⟩
  else
    match validate r with
    | .ok out => .valid out
    | .error es => .quar ⟨i, r.cells, es⟩

/-- The row loop of step 5, threading the enumeration index: returns the
valid set and the quarantine set in input order. -/
def splitGo (validate : Validator) (orphErrs : DRow → List ErrEntry)
    (i : Nat) : List DRow → List DRow × List QRec
  | [] => ([], [])
  | r :: rs =>
    let rest := splitGo validate orphErrs (i + 1) rs
    match routeRow validate orphErrs i r with
    | .valid v => (v :: rest.1, rest.2)
    | .quar q => (rest.1, q :: rest.2)

/-- Step 5 of `_process_source` over the whole post-dedup frame. -/
def splitRows (validate : Validator) (orphErrs : DRow → List ErrEntry)
    (rows : List DRow) : List DRow × List QRec :=
  splitGo validate orphErrs 0 rows

/-- The `error_counts` accumulation of step 5: one `referential_integrity`
tick per orphaned row, one tick per violation type otherwise. -/
def errorCountsOf (validate : Validator) (orphErrs : DRow → List ErrEntry)
    (rows : List DRow) : List (String × Nat) :=
  rows.foldl
    (fun acc r =>
      if orphErrs r ≠ [] then bumpCount acc "referential_integrity"
      else
        match validate r with
        | .ok _ => acc
        | .error es => es.foldl (fun a e => bumpCount a e.etype) acc)
    []

/-- `ProcessingResult` (`processor.py`). -/
structure PResult where
  source_name : String
  total_records : Nat := 0
  valid_records : Nat := 0
  quarantined_records : Nat := 0
  duplicates_removed : Nat := 0
  orphaned_records : Nat := 0
  fields_cleaned : List (String × Nat) := []
  error_counts : List (String × Nat) := []
deriving DecidableEq, Repr

/-- `ProcessingResult.pass_rate`: `valid_records / total_records`, `0.0` when
`total_records == 0` (exact rational arithmetic in place of the float
division — the quotient of machine-size counts is exact either way for the
order facts at stake). -/
def PResult.pass_rate (r : PResult) : Rat :=
  if r.total_records = 0 then 0
  else (r.valid_records : Rat) / (r.total_records : Rat)

/-- `SilverProcessor._cache_valid_keys`: extract the primary-key column when a
primary key is declared and present among `cols`; `str(v)` of every non-null
cell is stored. -/
def cacheKeysOf (pk : Option String) (cols : List String) (rows : List DRow) :
    Option (List String) :=
  match pk with
  | some k =>
    if k ≠ "" ∧ k ∈ cols then
      some (rows.filterMap fun r => (r.get k).map PValue.toStr)
    else none
  | none => none

/-- Columns of `pl.DataFrame(valid_records)`: the keys of the dumped records
(every `model_dump()` of one schema yields the same key list, so the head row
is representative; the list is only consulted when the valid set is
non-empty). -/
def validColsOf (rows : List DRow) : List String :=
  match rows with
  | [] => []
  | r :: _ => r.cells.map Prod.fst

/-- Everything `_process_source` leaves behind for one entity: the
`ProcessingResult`, the persisted valid rows, the quarantine file content and
the key-cache entry written for this entity (`none` when no entry is
written). -/
structure SourceOutcome where
  result : PResult
  validRows : List DRow := []
  quarantine : List QRec := []
  cacheKeys : Option (List String) := none
deriving DecidableEq, Repr

/-- `SilverProcessor._process_source`: clean, dedup, FK-check, validate,
split, cache.  `df?` is the Bronze frame, `none` when the Bronze CSV is
missing (empty result, not fatal); `validator?` is the registered Pydantic
schema, `none` when `get_pydantic_schema` raises (skip validation, pass all
rows through and cache their keys). -/
def processSource (du : DUParse) (source_name : String) (sd : SchemaDef)
    (validator? : Option Validator) (cache : KeyCache) (df? : Option DFrame) :
    SourceOutcome :=
  match df? with
  | none => { result := { source_name } }
  | some df0 =>
    let total := df0.rows.length
    let cleaned := applyCleaning du df0 sd.fields
    let df1 := cleaned.1
    let df2 := dedupStep sd.primary_key df1
    let dups := df1.rows.length - df2.rows.length
    let orphErrs := fun r => fkErrorsRow sd.fields cache df2.colNames r
    let orphaned := (df2.rows.filter fun r => orphErrs r ≠ []).length
    match validator? with
    | none =>
      { result := { source_name, total_records := total,
                    valid_records := df2.rows.length,
                    duplicates_removed := dups, orphaned_records := orphaned,
                    fields_cleaned := cleaned.2 }
        validRows := df2.rows
        cacheKeys := cacheKeysOf sd.primary_key df2.colNames df2.rows }
    | some validate =>
      let split := splitRows validate orphErrs df2.rows
      { result := { source_name, total_records := total,
                    valid_records := split.1.length,
                    quarantined_records := split.2.length,
                    duplicates_removed := dups, orphaned_records := orphaned,
                    fields_cleaned := cleaned.2,
                    error_counts := errorCountsOf validate orphErrs df2.rows }
        validRows := split.1
        quarantine := split.2
        cacheKeys :=
          if split.1 ≠ [] then
            cacheKeysOf sd.primary_key (validColsOf split.1) split.1
          else none }

/-- `s.replace(".", "", 1)` on the character list: drop the first dot. -/
def removeFirstDot : List Char → List Char
  | [] => []
  | c :: cs => if c = '.' then cs else c :: removeFirstDot cs

/-- `str(val).replace(".", "", 1).isdigit()`: non-empty and all digits after
removing at most one dot (Python also accepts non-ASCII digit codepoints;
the model keeps the ASCII digits the data can contain). -/
def isNumericStr (s : String) : Bool :=
  removeFirstDot s.toList ≠ [] && (removeFirstDot s.toList).all Char.isDigit

/-- Digit characters to a natural number. -/
def digitsToNat (cs : List Char) : Nat :=
  cs.foldl (fun n c => 10 * n + (c.toNat - 48)) 0

/-- `float(val)` on a string that passed the `isdigit` guard (digits with at
most one dot), as an exact rational. -/
def parseEpochFloat (s : String) : Rat :=
  match splitOnChar '.' s.data with
  | [a] => (digitsToNat a : Rat)
  | [a, b] =>
    (digitsToNat a : Rat) +
      (digitsToNat b : Rat) / ((10 ^ b.length : Nat) : Rat)
  | _ => 0

/-- `_normalize_date` of `SilverCleaner._clean_column_date`: nulls and empty
strings pass through; a purely numeric value whose float is within the
plausible Unix-epoch-seconds range `[0, 4102444800]` is converted to the
calendar date of `datetime.fromtimestamp`; otherwise the value is parsed by
`dateutil` with `dayfirst=False` and rendered ISO; a value that fails to
parse is returned unchanged, never nulled. -/
def cleanerNormalizeDate (du : DUParse) (fts : FromTs) : Cell → Cell
  | none => none
  | some (.s v) =>
    if v = "" then some (.s v)
    else if isNumericStr v ∧ 0 ≤ parseEpochFloat v ∧ parseEpochFloat v ≤ 4102444800 then
      some (.s (fts (parseEpochFloat v)).toISO)
    else
      match du false v with
      | .ok d => some (.s d.toISO)
      | .error _ => some (.s v)
  | c => c

/-- `SilverCleaner._clean_column_date`: non-string columns are skipped with
`changed=False`; string columns are mapped cell-wise through
`_normalize_date` and reported changed. -/
def cleanColumnDate (du : DUParse) (fts : FromTs) (df : DFrame) (col : String) :
    DFrame × Bool :=
  if df.isStrCol col then (df.mapCol col (cleanerNormalizeDate du fts), true)
  else (df, false)

/-- Error list of one field check (empty on success). -/
def errsOf {α : Type} : Except ErrEntry α → List ErrEntry
  | .ok _ => []
  | .error e => [e]

/-- Value of one field check, with a default that is only consulted on the
error path (where the record is rejected before the value is observed). -/
def exVal {α : Type} : Except ErrEntry α → α → α
  | .ok a, _ => a
  | .error _, d => d

/-- Pydantic coercion for `Optional[str]`: nulls pass, strings pass, other
scalars are a `string_type` violation. -/
def coeOptStr (f : String) : Cell → Except ErrEntry (Option String)
  | none => .ok none
  | some (.s v) => .ok (some v)
  | some _ => .error ⟨f, "string_type", "Input should be a valid string"⟩

/-- Pydantic coercion for a required `str` field (a null models both an
absent key and a `None` value — CSV rows carry every column). -/
def coeReqStr (f : String) : Cell → Except ErrEntry String
  | none => .error ⟨f, "missing", "Field required"⟩
  | some (.s v) => .ok v
  | some _ => .error ⟨f, "string_type", "Input should be a valid string"⟩

/-- Required `str` with a `pattern=` constraint. -/
def coePatStr (f : String) (pat : String → Bool) (c : Cell) :
    Except ErrEntry String :=
  match coeReqStr f c with
  | .ok v =>
    if pat v then .ok v
    else .error ⟨f, "string_pattern_mismatch", "String should match pattern"⟩
  | .error e => .error e

/-- The `^CUS-\d+$` primary-key pattern of `CustomerSchema.customer_id`. -/
def patCUS (s : String) : Bool :=
  s.data.take 4 = ['C', 'U', 'S', '-'] && s.data.drop 4 ≠ [] &&
    (s.data.drop 4).all Char.isDigit

/-- Lax string-to-integer coercion (optional sign, digits; surrounding
whitespace tolerated as Python does). -/
def parseSignedInt (s : String) : Option Int :=
  match trimChars s with
  | [] => none
  | c :: cs =>
    if c = '-' then
      if cs ≠ [] ∧ cs.all Char.isDigit then some (-(digitsToNat cs : Int)) else none
    else if c = '+' then
      if cs ≠ [] ∧ cs.all Char.isDigit then some ((digitsToNat cs : Int)) else none
    else if (c :: cs).all Char.isDigit then some ((digitsToNat (c :: cs) : Int))
    else none

/-- Lax string-to-float coercion: optional sign, digits, optional fractional
part (scientific notation is not modelled). -/
def parseDecimal (s : String) : Option Rat :=
  let core := fun (t : List Char) =>
    match splitOnChar '.' t with
    | [a] => if a ≠ [] ∧ a.all Char.isDigit
             then some ((digitsToNat a : Rat)) else none
    | [a, b] =>
      if (a ++ b) ≠ [] ∧ (a ++ b).all Char.isDigit
      then some ((digitsToNat a : Rat) +
                 (digitsToNat b : Rat) / ((10 ^ b.length : Nat) : Rat))
      else none
    | _ => none
  match trimChars s with
  | '-' :: cs => (core cs).map (fun x => -x)
  | '+' :: cs => core cs
  | cs => core cs

/-- Pydantic coercion for `Optional[int]`. -/
def coeOptInt (f : String) : Cell → Except ErrEntry (Option Int)
  | none => .ok none
  | some (.i n) => .ok (some n)
  | some (.s v) =>
    match parseSignedInt v with
    | some n => .ok (some n)
    | none => .error ⟨f, "int_parsing", "Input should be a valid integer"⟩
  | some (.q x) =>
    if x.den = 1 then .ok (some x.num)
    else .error ⟨f, "int_from_float", "Input should be a valid integer"⟩
  | some (.b _) => .error ⟨f, "int_type", "Input should be a valid integer"⟩

/-- Pydantic coercion for `Optional[float]`. -/
def coeOptFloat (f : String) : Cell → Except ErrEntry (Option Rat)
  | none => .ok none
  | some (.q x) => .ok (some x)
  | some (.i n) => .ok (some (n : Rat))
  | some (.s v) =>
    match parseDecimal v with
    | some x => .ok (some x)
    | none => .error ⟨f, "float_parsing", "Input should be a valid number"⟩
  | some (.b _) => .error ⟨f, "float_type", "Input should be a valid number"⟩

/-- Lax string-to-boolean coercion. -/
def parseBoolStr (s : String) : Option Bool :=
  if strLower s ∈ ["true", "t", "yes", "y", "on", "1"] then some true
  else if strLower s ∈ ["false", "f", "no", "n", "off", "0"] then some false
  else none

/-- Pydantic coercion for `Optional[bool]`. -/
def coeOptBool (f : String) : Cell → Except ErrEntry (Option Bool)
  | none => .ok none
  | some (.b b) => .ok (some b)
  | some (.s v) =>
    match parseBoolStr v with
    | some b => .ok (some b)
    | none => .error ⟨f, "bool_parsing", "Input should be a valid boolean"⟩
  | some (.i n) =>
    if n = 1 then .ok (some true)
    else if n = 0 then .ok (some false)
    else .error ⟨f, "bool_parsing", "Input should be a valid boolean"⟩
  | some (.q x) =>
    if x = 1 then .ok (some true)
    else if x = 0 then .ok (some false)
    else .error ⟨f, "bool_parsing", "Input should be a valid boolean"⟩

/-- `Field(ge=0)` on an optional integer. -/
def geZeroInt (f : String) : Option Int → Except ErrEntry (Option Int)
  | none => .ok none
  | some n =>
    if n < 0 then
      .error ⟨f, "greater_than_equal", "Input should be greater than or equal to 0"⟩
    else .ok (some n)

/-- `Field(ge=0)` on an optional float. -/
def geZeroRat (f : String) : Option Rat → Except ErrEntry (Option Rat)
  | none => .ok none
  | some x =>
    if x < 0 then
      .error ⟨f, "greater_than_equal", "Input should be greater than or equal to 0"⟩
    else .ok (some x)

/-- The email regex `^[^@\s]+@[^@\s]+\.[^@\s]+$` of
`CustomerSchema.validate_email_format`: exactly one `@`, no whitespace, a
non-empty name part, and a dot inside the domain part with non-empty text on
both sides. -/
def emailOk (s : String) : Bool :=
  match splitOnChar '@' s.data with
  | [name, dom] =>
    name ≠ [] && dom ≠ [] && !s.data.any Char.isWhitespace &&
      ((dom.drop 1).dropLast.contains '.')
  | _ => false

/-- `CustomerSchema.validate_email_format`: nulls, empty strings, textual
null markers and malformed addresses are all nulled — the record is kept,
the validator never raises. -/
def cleanEmail : Option String → Option String
  | none => none
  | some v =>
    if v = "" then none
    else if strLower v ∈ ["n/a", "null", "none", "nan"] then none
    else if emailOk v then some v
    else none

/-- `CustomerSchema.date_not_in_future` on `registration_date` and
`last_purchase_date`: a value that parses to a date strictly after today is
nulled (soft-invalidation, the record is kept); parse failures whose message
mentions "future" are nulled too; other parse failures re-raise and are
surfaced as a validation error. -/
def dateNotInFuture (f : String) (today : SDate) (du : DUParse) :
    Option String → Except ErrEntry (Option String)
  | none => .ok none
  | some v =>
    if v = "" then .ok (some v)
    else
      match du false v with
      | .ok d => if today.before d then .ok none else .ok (some v)
      | .error msg =>
        if listContainsSub "future".data msg.data then .ok none
        else .error ⟨f, "value_error", msg⟩

/-- The typed `CustomerSchema` model (`schemas.py`), field for field. -/
structure Customer where
  customer_id : String
  full_name : String
  first_name : Option String
  last_name : Option String
  email : Option String
  phone : Option String
  gender : Option String
  age : Option Int
  date_of_birth : Option String
  address_street : Option String
  address_city : Option String
  address_state : Option String
  address_postal_code : Option String
  address_country : Option String
  segment : Option String
  total_spend : Option Rat
  registration_date : Option String
  last_purchase_date : Option String
  is_active : Option Bool
  email_verified : Option Bool
  phone_verified : Option Bool
  preferences_newsletter : Option Bool
  preferences_sms_notifications : Option Bool
  preferences_preferred_language : Option String
  preferences_preferred_currency : Option String
  metadata_source : Option String
  total_orders : Option Int
  average_order_value : Option Rat
  metadata_created_at : Option String
  metadata_updated_at : Option String
  source_file : Option String
  loaded_at : Option String

/-- First quarter of the `model_dump()` key list. -/
def dumpCustomerA (c : Customer) : List (String × Cell) :=
   [("customer_id", some (PValue.s c.customer_id)),
    ("full_name", some (PValue.s c.full_name)),
    ("first_name", c.first_name.map PValue.s),
    ("last_name", c.last_name.map PValue.s),
    ("email", c.email.map PValue.s),
    ("phone", c.phone.map PValue.s),
    ("gender", c.gender.map PValue.s),
    ("age", c.age.map PValue.i)]

/-- Second quarter of the `model_dump()` key list. -/
def dumpCustomerB (c : Customer) : List (String × Cell) :=
   [("date_of_birth", c.date_of_birth.map PValue.s),
    ("address_street", c.address_street.map PValue.s),
    ("address_city", c.address_city.map PValue.s),
    ("address_state", c.address_state.map PValue.s),
    ("address_postal_code", c.address_postal_code.map PValue.s),
    ("address_country", c.address_country.map PValue.s),
    ("segment", c.segment.map PValue.s),
    ("total_spend", c.total_spend.map PValue.q)]

/-- Third quarter of the `model_dump()` key list. -/
def dumpCustomerC (c : Customer) : List (String × Cell) :=
   [("registration_date", c.registration_date.map PValue.s),
    ("last_purchase_date", c.last_purchase_date.map PValue.s),
    ("is_active", c.is_active.map PValue.b),
    ("email_verified", c.email_verified.map PValue.b),
    ("phone_verified", c.phone_verified.map PValue.b),
    ("preferences_newsletter", c.preferences_newsletter.map PValue.b),
    ("preferences_sms_notifications", c.preferences_sms_notifications.map PValue.b),
    ("preferences_preferred_language", c.preferences_preferred_language.map PValue.s)]

/-- Fourth quarter of the `model_dump()` key list. -/
def dumpCustomerD (c : Customer) : List (String × Cell) :=
   [("preferences_preferred_currency", c.preferences_preferred_currency.map PValue.s),
    ("metadata_source", c.metadata_source.map PValue.s),
    ("total_orders", c.total_orders.map PValue.i),
    ("average_order_value", c.average_order_value.map PValue.q),
    ("metadata_created_at", c.metadata_created_at.map PValue.s),
    ("metadata_updated_at", c.metadata_updated_at.map PValue.s),
    ("source_file", c.source_file.map PValue.s),
    ("loaded_at", c.loaded_at.map PValue.s)]

/-- `model_dump()` of a validated customer: one cell per declared field, in
declaration order (aliased fields dump under their field name). -/
def dumpCustomer (c : Customer) : DRow :=
  DRow.mk (dumpCustomerA c ++ dumpCustomerB c ++ dumpCustomerC c ++ dumpCustomerD c)

/-- `CustomerSchema.model_validate(row).model_dump()`: coerce every declared
field (extras are ignored), run the two field validators, collect all
violations in field order, and dump the transformed record on success. -/
def validateCustomer (today : SDate) (du : DUParse) (r : DRow) :
    Except (List ErrEntry) DRow :=
  let fid := coePatStr "customer_id" patCUS (r.get "customer_id")
  let fname := coeReqStr "full_name" (r.get "full_name")
  let ffirst := coeOptStr "first_name" (r.get "first_name")
  let flast := coeOptStr "last_name" (r.get "last_name")
  let femail := (coeOptStr "email" (r.get "email")).map cleanEmail
  let fphone := coeOptStr "phone" (r.get "phone")
  let fgender := coeOptStr "gender" (r.get "gender")
  let fage := coeOptInt "age" (r.get "age")
  let fdob := coeOptStr "date_of_birth" (r.get "date_of_birth")
  let fstreet := coeOptStr "address_street" (r.get "address_street")
  let fcity := coeOptStr "address_city" (r.get "address_city")
  let fstate := coeOptStr "address_state" (r.get "address_state")
  let fpostal := coeOptStr "address_postal_code" (r.get "address_postal_code")
  let fcountry := coeOptStr "address_country" (r.get "address_country")
  let fsegment := coeOptStr "segment" (r.get "segment")
  let fspend := coeOptFloat "total_spend" (r.get "total_spend")
  let freg := (coeOptStr "registration_date" (r.get "registration_date")).bind
    (dateNotInFuture "registration_date" today du)
  let flast2 := (coeOptStr "last_purchase_date" (r.get "last_purchase_date")).bind
    (dateNotInFuture "last_purchase_date" today du)
  let factive := coeOptBool "is_active" (r.get "is_active")
  let fev := coeOptBool "email_verified" (r.get "email_verified")
  let fpv := coeOptBool "phone_verified" (r.get "phone_verified")
  let fnews := coeOptBool "preferences_newsletter" (r.get "preferences_newsletter")
  let fsms := coeOptBool "preferences_sms_notifications" (r.get "preferences_sms_notifications")
  let flang := coeOptStr "preferences_preferred_language" (r.get "preferences_preferred_language")
  let fcurr := coeOptStr "preferences_preferred_currency" (r.get "preferences_preferred_currency")
  let fmsrc := coeOptStr "metadata_source" (r.get "metadata_source")
  let forders := (coeOptInt "total_orders" (r.get "total_orders")).bind (geZeroInt "total_orders")
  let faov := (coeOptFloat "average_order_value" (r.get "average_order_value")).bind
    (geZeroRat "average_order_value")
  let fmcre := coeOptStr "metadata_created_at" (r.get "metadata_created_at")
  let fmupd := coeOptStr "metadata_updated_at" (r.get "metadata_updated_at")
  let fsrc := coeOptStr "source_file" (r.get "_source_file")
  let floa := coeOptStr "loaded_at" (r.get "_loaded_at")
  let errs :=
    errsOf fid ++ errsOf fname ++ errsOf ffirst ++ errsOf flast ++
    errsOf femail ++ errsOf fphone ++ errsOf fgender ++ errsOf fage ++
    errsOf fdob ++ errsOf fstreet ++ errsOf fcity ++ errsOf fstate ++
    errsOf fpostal ++ errsOf fcountry ++ errsOf fsegment ++ errsOf fspend ++
    errsOf freg ++ errsOf flast2 ++ errsOf factive ++ errsOf fev ++
    errsOf fpv ++ errsOf fnews ++ errsOf fsms ++ errsOf flang ++
    errsOf fcurr ++ errsOf fmsrc ++ errsOf forders ++ errsOf faov ++
    errsOf fmcre ++ errsOf fmupd ++ errsOf fsrc ++ errsOf floa
  if errs = [] then
    .ok (dumpCustomer
      { customer_id := exVal fid ""
        full_name := exVal fname ""
        first_name := exVal ffirst none
        last_name := exVal flast none
        email := exVal femail none
        phone := exVal fphone none
        gender := exVal fgender none
        age := exVal fage none
        date_of_birth := exVal fdob none
        address_street := exVal fstreet none
        address_city := exVal fcity none
        address_state := exVal fstate none
        address_postal_code := exVal fpostal none
        address_country := exVal fcountry none
        segment := exVal fsegment none
        total_spend := exVal fspend none
        registration_date := exVal freg none
        last_purchase_date := exVal flast2 none
        is_active := exVal factive none
        email_verified := exVal fev none
        phone_verified := exVal fpv none
        preferences_newsletter := exVal fnews none
        preferences_sms_notifications := exVal fsms none
        preferences_preferred_language := exVal flang none
        preferences_preferred_currency := exVal fcurr none
        metadata_source := exVal fmsrc none
        total_orders := exVal forders none
        average_order_value := exVal faov none
        metadata_created_at := exVal fmcre none
        metadata_updated_at := exVal fmupd none
        source_file := exVal fsrc none
        loaded_at := exVal floa none })
  else .error errs

/-- Python truthiness of a cell (`bool(v)`, with `None` falsy). -/
def cellTruthy : Cell → Bool
  | none => false
  | some v => v.truthy

/-- `item[k] = v` on a Python dict: overwrite in place when the key exists
(position preserved), append otherwise. -/
def DRow.put (r : DRow) (k : String) (v : Cell) : DRow :=
  if (r.cells.lookup k).isSome then
    ⟨r.cells.map fun kv => if kv.1 = k then (kv.1, v) else kv⟩
  else ⟨r.cells ++ [(k, v)]⟩

/-- Pydantic coercion for a required `int` field. -/
def coeReqInt (f : String) (c : Cell) : Except ErrEntry Int :=
  match c with
  | none => .error ⟨f, "missing", "Field required"⟩
  | some _ =>
    match coeOptInt f c with
    | .ok (some n) => .ok n
    | .ok none => .error ⟨f, "missing", "Field required"⟩
    | .error e => .error e

/-- The typed `InvoiceLineItemSchema` model (`schemas.py`). -/
structure LineItem where
  invoice_id : String
  line_number : Int
  product_id : Option String
  description : Option String
  quantity : Option Int
  unit_cost : Option Rat
  line_total : Option Rat
  source_file : Option String
  loaded_at : Option String

/-- `model_dump()` of a validated line item. -/
def dumpLineItem (li : LineItem) : DRow :=
  ⟨[("invoice_id", some (.s li.invoice_id)),
    ("line_number", some (.i li.line_number)),
    ("product_id", li.product_id.map .s),
    ("description", li.description.map .s),
    ("quantity", li.quantity.map .i),
    ("unit_cost", li.unit_cost.map .q),
    ("line_total", li.line_total.map .q),
    ("source_file", li.source_file.map .s),
    ("loaded_at", li.loaded_at.map .s)]⟩

/-- `InvoiceLineItemSchema(**item).model_dump()`: coerce the declared fields
of the stamped item (extras are ignored), collecting violations in field
order. -/
def validateLineItem (r : DRow) : Except (List ErrEntry) DRow :=
  let fiid := coeReqStr "invoice_id" (r.get "invoice_id")
  let fln := coeReqInt "line_number" (r.get "line_number")
  let fpid := coeOptStr "product_id" (r.get "product_id")
  let fdesc := coeOptStr "description" (r.get "description")
  let fqty := coeOptInt "quantity" (r.get "quantity")
  let fuc := coeOptFloat "unit_cost" (r.get "unit_cost")
  let flt := coeOptFloat "line_total" (r.get "line_total")
  let fsrc := coeOptStr "source_file" (r.get "_source_file")
  let floa := coeOptStr "loaded_at" (r.get "_loaded_at")
  let errs :=
    errsOf fiid ++ errsOf fln ++ errsOf fpid ++ errsOf fdesc ++
    errsOf fqty ++ errsOf fuc ++ errsOf flt ++ errsOf fsrc ++ errsOf floa
  if errs = [] then
    .ok (dumpLineItem
      { invoice_id := exVal fiid ""
        line_number := exVal fln 0
        product_id := exVal fpid none
        description := exVal fdesc none
        quantity := exVal fqty none
        unit_cost := exVal fuc none
        line_total := exVal flt none
        source_file := exVal fsrc none
        loaded_at := exVal floa none })
  else .error errs

/-- Oracle for `json.loads` on the `line_items_json` column: `some items`
when the payload decodes to a JSON array of objects, `none` when decoding
raises (`JSONDecodeError`, or the `TypeError` of a non-array payload). -/
abbrev ParseItems := String → Option (List DRow)

/-- The stamping step of the inner loop: `item["invoice_id"] = invoice_id`,
plus the two provenance keys when their cells are truthy. -/
def stampItem (idv sf la : Cell) (it : DRow) : DRow :=
  let it1 := it.put "invoice_id" idv
  let it2 := if cellTruthy sf then it1.put "_source_file" sf else it1
  if cellTruthy la then it2.put "_loaded_at" la else it2

/-- The inner loop over the decoded array of one parent row: stamp each item
with the parent's `invoice_id` (and the provenance cells when truthy),
validate it, and route it to the valid or the quarantine bucket; a
quarantined item records its index within the array. -/
def liGo (idv sf la : Cell) (idx : Nat) : List DRow → List DRow × List QRec
  | [] => ([], [])
  | it :: rest =>
    let t := liGo idv sf la (idx + 1) rest
    match validateLineItem (stampItem idv sf la it) with
    | .ok out => (out :: t.1, t.2)
    | .error es => (t.1, ⟨idx, (stampItem idv sf la it).cells, es⟩ :: t.2)

/-- Extraction of one Bronze invoice row: skip rows with a falsy payload or
parent key, skip rows whose `invoice_id` is not in the validated set, skip
rows whose payload fails to decode; otherwise process the decoded array. -/
def emitRow (pj : ParseItems) (validIds : List String) (r : DRow) :
    List DRow × List QRec :=
  let idv := r.get "invoice_id"
  let raw := r.get "line_items_json"
  if ¬ cellTruthy raw ∨ ¬ cellTruthy idv then ([], [])
  else
    match idv with
    | some pid =>
      if pid.toStr ∉ validIds then ([], [])
      else
        match raw with
        | some (.s payload) =>
          match pj payload with
          | some items => liGo idv (r.get "_source_file") (r.get "_loaded_at") 0 items
          | none => ([], [])
        | _ => ([], [])
    | none => ([], [])

/-- The row loop of `SilverProcessor._parse_invoice_line_items` over the
pre-dedup Bronze rows, concatenating each row's contribution in order. -/
def extractLineItems (pj : ParseItems) (validIds : List String) :
    List DRow → List DRow × List QRec
  | [] => ([], [])
  | r :: rs =>
    let h := emitRow pj validIds r
    let t := extractLineItems pj validIds rs
    (h.1 ++ t.1, h.2 ++ t.2)

/-- `set(silver_df["invoice_id"].to_list())`: the `invoice_id` column of the
persisted valid invoices (nulls never compare equal to a truthy parent key,
so dropping them is equivalent). -/
def validIdsOf (validRows : List DRow) : List String :=
  validRows.filterMap fun r => (r.get "invoice_id").map PValue.toStr

/-- The line-item stage as gated by `process_all` (lines 116–117) and by the
column guard of `_parse_invoice_line_items`: runs only when the Invoice
entity produced at least one valid record, reading the pre-dedup Bronze
frame and the just-published valid invoice keys. -/
def lineItemStage (pj : ParseItems) (bronze : DFrame) (inv : SourceOutcome) :
    List DRow × List QRec :=
  if inv.result.valid_records > 0 then
    if "line_items_json" ∈ bronze.colNames then
      extractLineItems pj (validIdsOf inv.validRows) bronze.rows
    else ([], [])
  else ([], [])

/-! ## Structural helper lemmas -/

theorem DFrame.mapCol_rows_length (df : DFrame) (f : String) (g : Cell → Cell) :
    (df.mapCol f g).rows.length = df.rows.length := by
  simp [DFrame.mapCol]

theorem DFrame.setDType_rows (df : DFrame) (f : String) (t : DType) :
    (df.setDType f t).rows = df.rows := rfl

theorem cleanField_rows_length (du : DUParse) (df : DFrame)
    (stats : List (String × Nat)) (f : String) (fd : FieldDef) :
    (cleanField du df stats f fd).1.rows.length = df.rows.length := by
  unfold cleanField
  split
  · rfl
  · split
    · rfl
    · split
      · split <;> simp [DFrame.mapCol]
      · split
        · split <;> simp [DFrame.mapCol]
        · split
          · split <;> simp [DFrame.mapCol]
          · split
            · split <;> simp [DFrame.mapCol, DFrame.setDType]
            · split
              · split <;> simp [DFrame.mapCol]
              · rfl

theorem foldClean_rows_length (du : DUParse) (fs : List (String × FieldDef)) :
    ∀ (df : DFrame) (stats : List (String × Nat)),
      ((fs.foldl (fun acc p => cleanField du acc.1 acc.2 p.1 p.2) (df, stats)).1).rows.length
        = df.rows.length := by
  induction fs with
  | nil => intro df stats; rfl
  | cons p ps ih =>
    intro df stats
    rw [List.foldl_cons]
    calc ((ps.foldl (fun acc p => cleanField du acc.1 acc.2 p.1 p.2)
            (cleanField du df stats p.1 p.2)).1).rows.length
        = (cleanField du df stats p.1 p.2).1.rows.length := by
          have := ih (cleanField du df stats p.1 p.2).1 (cleanField du df stats p.1 p.2).2
          simpa using this
      _ = df.rows.length := cleanField_rows_length du df stats p.1 p.2

theorem applyCleaning_rows_length (du : DUParse) (df : DFrame)
    (fs : List (String × FieldDef)) :
    (applyCleaning du df fs).1.rows.length = df.rows.length :=
  foldClean_rows_length du fs df []

theorem dedupGo_length_le (pk : String) :
    ∀ (l : List DRow) (seen : List Cell), (dedupGo pk seen l).length ≤ l.length := by
  intro l
  induction l with
  | nil => intro seen; simp [dedupGo]
  | cons r rs ih =>
    intro seen
    simp only [dedupGo]
    split
    · exact Nat.le_trans (ih seen) (Nat.le_succ _)
    · simpa using ih (r.get pk :: seen)

theorem dedupStep_rows_length_le (pk : Option String) (df : DFrame) :
    (dedupStep pk df).rows.length ≤ df.rows.length := by
  cases pk with
  | none => exact Nat.le_refl _
  | some k =>
    simp only [dedupStep]
    split
    · exact dedupGo_length_le k df.rows []
    · exact Nat.le_refl _

theorem splitGo_length (v : Validator) (o : DRow → List ErrEntry) :
    ∀ (rows : List DRow) (i : Nat),
      (splitGo v o i rows).1.length + (splitGo v o i rows).2.length = rows.length := by
  intro rows
  induction rows with
  | nil => intro i; rfl
  | cons r rs ih =>
    intro i
    have h := ih (i + 1)
    simp only [splitGo]
    cases routeRow v o i r <;> simp only [List.length_cons] <;> omega

/-! ## Claim theorems -/

/-- Count partition of `_process_source` (shared workhorse). -/
theorem processSource_count_partition (du : DUParse) (sn : String) (sd : SchemaDef)
    (v? : Option Validator) (cache : KeyCache) (df? : Option DFrame) :
    (processSource du sn sd v? cache df?).result.total_records =
      (processSource du sn sd v? cache df?).result.duplicates_removed +
      (processSource du sn sd v? cache df?).result.valid_records +
      (processSource du sn sd v? cache df?).result.quarantined_records := by
  cases df? with
  | none => rfl
  | some df0 =>
    cases v? with
    | none =>
      have h1 := applyCleaning_rows_length du df0 sd.fields
      have h2 := dedupStep_rows_length_le sd.primary_key (applyCleaning du df0 sd.fields).1
      simp only [processSource]
      omega
    | some validate =>
      have h1 := applyCleaning_rows_length du df0 sd.fields
      have h2 := dedupStep_rows_length_le sd.primary_key (applyCleaning du df0 sd.fields).1
      have h3 := splitGo_length validate
        (fun r => fkErrorsRow sd.fields cache
          (dedupStep sd.primary_key (applyCleaning du df0 sd.fields).1).colNames r)
        (dedupStep sd.primary_key (applyCleaning du df0 sd.fields).1).rows 0
      simp only [processSource, splitRows]
      omega

/-- Claim C1: for every entity processed in a run, the resulting
`ProcessingResult` satisfies
`total_records = duplicates_removed + valid_records + quarantined_records`:
`total_records` is the upstream row count, `duplicates_removed` the rows
dropped by primary-key deduplication, and every remaining row lands in
exactly one of the valid or quarantined sets. -/
theorem c1_count_partition (du : DUParse) (sn : String) (sd : SchemaDef)
    (v? : Option Validator) (cache : KeyCache) (df? : Option DFrame) :
    (processSource du sn sd v? cache df?).result.total_records =
      (processSource du sn sd v? cache df?).result.duplicates_removed +
      (processSource du sn sd v? cache df?).result.valid_records +
      (processSource du sn sd v? cache df?).result.quarantined_records :=
  processSource_count_partition du sn sd v? cache df?

theorem dedupGo_idem (pk : String) :
    ∀ (l : List DRow) (seen : List Cell),
      dedupGo pk seen (dedupGo pk seen l) = dedupGo pk seen l := by
  intro l
  induction l with
  | nil => intro seen; rfl
  | cons r rs ih =>
    intro seen
    by_cases h : r.get pk ∈ seen
    · simp only [dedupGo, if_pos h]
      exact ih seen
    · simp only [dedupGo, if_neg h]
      rw [ih (r.get pk :: seen)]

/-- Claim C8: keep-first primary-key deduplication is idempotent — applied to
its own output it drops zero rows and leaves the row sequence (and the
frame) unchanged. -/
theorem c8_dedup_idempotent (pk : Option String) (df : DFrame) :
    dedupStep pk (dedupStep pk df) = dedupStep pk df ∧
    (dedupStep pk df).rows.length - (dedupStep pk (dedupStep pk df)).rows.length = 0 := by
  have hmain : dedupStep pk (dedupStep pk df) = dedupStep pk df := by
    cases pk with
    | none => rfl
    | some k =>
      by_cases h : k ≠ "" ∧ k ∈ df.colNames
      · have hcols : (DFrame.mk df.cols (dedupKeyed k df.rows)).colNames = df.colNames := rfl
        simp only [dedupStep, if_pos h, hcols, dedupKeyed]
        rw [dedupGo_idem]
        split <;> rfl
      · simp only [dedupStep, if_neg h]
  exact ⟨hmain, by rw [hmain, Nat.sub_self]⟩

theorem DFrame.mapCol_cols (df : DFrame) (f : String) (g : Cell → Cell) :
    (df.mapCol f g).cols = df.cols := rfl

theorem DFrame.setDType_colNames (df : DFrame) (f : String) (t : DType) :
    (df.setDType f t).colNames = df.colNames := by
  simp only [DFrame.setDType, DFrame.colNames, List.map_map]
  apply List.map_congr_left
  intro a _
  by_cases h : a.1 = f <;> simp [h]

theorem cleanField_colNames (du : DUParse) (df : DFrame)
    (stats : List (String × Nat)) (f : String) (fd : FieldDef) :
    (cleanField du df stats f fd).1.colNames = df.colNames := by
  unfold cleanField
  split
  · rfl
  · split
    · rfl
    · split
      · split <;> rfl
      · split
        · split <;> rfl
        · split
          · split <;> rfl
          · split
            · split
              · exact DFrame.setDType_colNames _ _ _
              · rfl
            · split
              · split <;> rfl
              · rfl

theorem foldClean_colNames (du : DUParse) (fs : List (String × FieldDef)) :
    ∀ (df : DFrame) (stats : List (String × Nat)),
      ((fs.foldl (fun acc p => cleanField du acc.1 acc.2 p.1 p.2) (df, stats)).1).colNames
        = df.colNames := by
  induction fs with
  | nil => intro df stats; rfl
  | cons p ps ih =>
    intro df stats
    rw [List.foldl_cons]
    calc ((ps.foldl (fun acc p => cleanField du acc.1 acc.2 p.1 p.2)
            (cleanField du df stats p.1 p.2)).1).colNames
        = (cleanField du df stats p.1 p.2).1.colNames := by
          have := ih (cleanField du df stats p.1 p.2).1 (cleanField du df stats p.1 p.2).2
          simpa using this
      _ = df.colNames := cleanField_colNames du df stats p.1 p.2

theorem applyCleaning_colNames (du : DUParse) (df : DFrame)
    (fs : List (String × FieldDef)) :
    (applyCleaning du df fs).1.colNames = df.colNames :=
  foldClean_colNames du fs df []

theorem dedupStep_cols (pk : Option String) (df : DFrame) :
    (dedupStep pk df).cols = df.cols := by
  cases pk with
  | none => rfl
  | some k =>
    simp only [dedupStep]
    split <;> rfl

theorem dedupStep_colNames (pk : Option String) (df : DFrame) :
    (dedupStep pk df).colNames = df.colNames := by
  simp [DFrame.colNames, dedupStep_cols]

/-- Claim C9: when no Pydantic schema is registered for an entity, every
post-dedup row is passed through as valid — `valid_records` counts them all,
nothing is quarantined (rows flagged by the FK check included, since the
valid set is the whole post-dedup frame), and the primary keys of all those
rows are cached for downstream foreign-key authorization. -/
theorem c9_no_schema_passthrough (du : DUParse) (sn : String) (sd : SchemaDef)
    (cache : KeyCache) (df0 : DFrame) (pk : String)
    (hpk : sd.primary_key = some pk) (hne : pk ≠ "") (hcol : pk ∈ df0.colNames) :
    (processSource du sn sd none cache (some df0)).result.valid_records =
      (dedupStep sd.primary_key (applyCleaning du df0 sd.fields).1).rows.length ∧
    (processSource du sn sd none cache (some df0)).result.quarantined_records = 0 ∧
    (processSource du sn sd none cache (some df0)).validRows =
      (dedupStep sd.primary_key (applyCleaning du df0 sd.fields).1).rows ∧
    (processSource du sn sd none cache (some df0)).quarantine = [] ∧
    (processSource du sn sd none cache (some df0)).cacheKeys =
      some ((dedupStep sd.primary_key (applyCleaning du df0 sd.fields).1).rows.filterMap
        fun r => (r.get pk).map PValue.toStr) := by
  have hcol2 : pk ∈ (dedupStep (some pk) (applyCleaning du df0 sd.fields).1).colNames := by
    rw [dedupStep_colNames, applyCleaning_colNames]
    exact hcol
  refine ⟨rfl, rfl, rfl, rfl, ?_⟩
  simp only [processSource, cacheKeysOf, hpk]
  rw [if_pos ⟨hne, hcol2⟩]

/-! ## Concrete fixtures for witnesses and counterexamples -/

/-- A date-parse oracle that rejects everything (no cell under test needs
parsing). -/
def duStub : DUParse := fun _ _ => .error "Unknown string format"

/-- A timestamp oracle pinned to the epoch. -/
def ftsStub : FromTs := fun _ => ⟨1970, 1, 1⟩

/-- A fixed "today" for the customer date validators. -/
def wToday : SDate := ⟨2025, 6, 1⟩

/-- The customer validator with the fixtures plugged in. -/
def custValidator : Validator := validateCustomer wToday duStub

/-- A three-row customer frame with one duplicated primary key. -/
def wDf9 : DFrame :=
  ⟨[("customer_id", .str)],
   [⟨[("customer_id", some (.s "CUS-1"))]⟩,
    ⟨[("customer_id", some (.s "CUS-1"))]⟩,
    ⟨[("customer_id", some (.s "CUS-2"))]⟩]⟩

/-- A schema declaring only the customer primary key. -/
def wSd9 : SchemaDef := ⟨some "customer_id", []⟩

/-- Witness for claim C9 at a concrete input: a three-row frame with a
duplicated key and no registered validator passes both post-dedup rows
through and caches both keys. -/
theorem c9_no_schema_passthrough_witness :
    (("customer_id" : String) ≠ "" ∧ "customer_id" ∈ wDf9.colNames) ∧
    ((processSource duStub "customers" wSd9 none [] (some wDf9)).result.valid_records =
      (dedupStep wSd9.primary_key (applyCleaning duStub wDf9 wSd9.fields).1).rows.length ∧
    (processSource duStub "customers" wSd9 none [] (some wDf9)).result.quarantined_records = 0 ∧
    (processSource duStub "customers" wSd9 none [] (some wDf9)).validRows =
      (dedupStep wSd9.primary_key (applyCleaning duStub wDf9 wSd9.fields).1).rows ∧
    (processSource duStub "customers" wSd9 none [] (some wDf9)).quarantine = [] ∧
    (processSource duStub "customers" wSd9 none [] (some wDf9)).cacheKeys =
      some ((dedupStep wSd9.primary_key (applyCleaning duStub wDf9 wSd9.fields).1).rows.filterMap
        fun r => (r.get "customer_id").map PValue.toStr)) :=
  ⟨⟨by decide, by decide⟩,
   c9_no_schema_passthrough duStub "customers" wSd9 [] wDf9 "customer_id" rfl
     (by decide) (by decide)⟩

/-- `valid_records ≤ total_records` for every produced result. -/
theorem processSource_valid_le_total (du : DUParse) (sn : String) (sd : SchemaDef)
    (v? : Option Validator) (cache : KeyCache) (df? : Option DFrame) :
    (processSource du sn sd v? cache df?).result.valid_records ≤
      (processSource du sn sd v? cache df?).result.total_records := by
  have h := processSource_count_partition du sn sd v? cache df?
  omega

/-- Arithmetic facts about `pass_rate` under `valid ≤ total`. -/
theorem passRate_facts (r : PResult) (h : r.valid_records ≤ r.total_records) :
    0 ≤ r.pass_rate ∧ r.pass_rate ≤ 1 ∧
    (r.pass_rate = 0 ↔ r.valid_records = 0) ∧
    (r.total_records = 0 → r.pass_rate = 0) ∧
    (0 < r.total_records →
      r.pass_rate = (r.valid_records : Rat) / (r.total_records : Rat)) := by
  by_cases ht : r.total_records = 0
  · have hv : r.valid_records = 0 := by omega
    simp [PResult.pass_rate, ht, hv]
  · have htq : (0 : Rat) < (r.total_records : Rat) := by
      exact_mod_cast Nat.pos_of_ne_zero ht
    rw [PResult.pass_rate, if_neg ht]
    refine ⟨div_nonneg (Nat.cast_nonneg _) (le_of_lt htq), ?_, ?_, ?_, ?_⟩
    · rw [div_le_one htq]
      exact_mod_cast h
    · rw [div_eq_zero_iff]
      constructor
      · rintro (hz | hz)
        · exact_mod_cast hz
        · exact absurd hz (ne_of_gt htq)
      · intro hz
        left
        exact_mod_cast hz
    · intro hz
      exact absurd hz ht
    · intro _
      rfl

/-- Claim C3 (amended): for every `ProcessingResult` of a run,
`pass_rate = valid_records / total_records` when `total_records > 0` and `0`
when `total_records = 0`, hence `0 ≤ pass_rate ≤ 1`; and `pass_rate = 0`
holds if and only if `valid_records = 0` (not: `total_records = 0` — a run
can quarantine every row). -/
theorem c3_pass_rate_amended (du : DUParse) (sn : String) (sd : SchemaDef)
    (v? : Option Validator) (cache : KeyCache) (df? : Option DFrame) :
    0 ≤ (processSource du sn sd v? cache df?).result.pass_rate ∧
    (processSource du sn sd v? cache df?).result.pass_rate ≤ 1 ∧
    ((processSource du sn sd v? cache df?).result.pass_rate = 0 ↔
      (processSource du sn sd v? cache df?).result.valid_records = 0) ∧
    ((processSource du sn sd v? cache df?).result.total_records = 0 →
      (processSource du sn sd v? cache df?).result.pass_rate = 0) ∧
    (0 < (processSource du sn sd v? cache df?).result.total_records →
      (processSource du sn sd v? cache df?).result.pass_rate =
        ((processSource du sn sd v? cache df?).result.valid_records : Rat) /
        ((processSource du sn sd v? cache df?).result.total_records : Rat)) :=
  passRate_facts _ (processSource_valid_le_total du sn sd v? cache df?)

/-- A one-row customer frame whose single row fails the primary-key pattern. -/
def wDf3 : DFrame :=
  ⟨[("customer_id", DType.str), ("full_name", DType.str)],
   [⟨[("customer_id", some (.s "BAD")), ("full_name", some (.s "Ada"))]⟩]⟩

/-- Counterexample to claim C3 as stated: processing one schema-invalid
customer row yields `pass_rate = 0` with `total_records = 1 ≠ 0`, so
"`pass_rate == 0` iff `total_records == 0`" fails. -/
theorem c3_counterexample :
    ¬ (((processSource duStub "customers" ⟨some "customer_id", []⟩
          (some custValidator) [] (some wDf3)).result.pass_rate = 0) ↔
       ((processSource duStub "customers" ⟨some "customer_id", []⟩
          (some custValidator) [] (some wDf3)).result.total_records = 0)) := by
  have ht : (processSource duStub "customers" ⟨some "customer_id", []⟩
      (some custValidator) [] (some wDf3)).result.total_records = 1 := by decide
  have hv : (processSource duStub "customers" ⟨some "customer_id", []⟩
      (some custValidator) [] (some wDf3)).result.valid_records = 0 := by decide
  have hp : (processSource duStub "customers" ⟨some "customer_id", []⟩
      (some custValidator) [] (some wDf3)).result.pass_rate = 0 := by
    rw [PResult.pass_rate, ht, hv]
    norm_num
  intro hiff
  have h0 := hiff.mp hp
  rw [ht] at h0
  exact one_ne_zero h0

/-- Witness for claim C3 (amended) at the same concrete input:
`pass_rate = 0` there coincides with `valid_records = 0`, and the bounds
hold. -/
theorem c3_pass_rate_amended_witness :
    0 ≤ (processSource duStub "customers" ⟨some "customer_id", []⟩
          (some custValidator) [] (some wDf3)).result.pass_rate ∧
    (processSource duStub "customers" ⟨some "customer_id", []⟩
          (some custValidator) [] (some wDf3)).result.pass_rate ≤ 1 ∧
    ((processSource duStub "customers" ⟨some "customer_id", []⟩
          (some custValidator) [] (some wDf3)).result.pass_rate = 0 ↔
      (processSource duStub "customers" ⟨some "customer_id", []⟩
          (some custValidator) [] (some wDf3)).result.valid_records = 0) ∧
    ((processSource duStub "customers" ⟨some "customer_id", []⟩
          (some custValidator) [] (some wDf3)).result.total_records = 0 →
      (processSource duStub "customers" ⟨some "customer_id", []⟩
          (some custValidator) [] (some wDf3)).result.pass_rate = 0) ∧
    (0 < (processSource duStub "customers" ⟨some "customer_id", []⟩
          (some custValidator) [] (some wDf3)).result.total_records →
      (processSource duStub "customers" ⟨some "customer_id", []⟩
          (some custValidator) [] (some wDf3)).result.pass_rate =
        ((processSource duStub "customers" ⟨some "customer_id", []⟩
          (some custValidator) [] (some wDf3)).result.valid_records : Rat) /
        ((processSource duStub "customers" ⟨some "customer_id", []⟩
          (some custValidator) [] (some wDf3)).result.total_records : Rat)) :=
  c3_pass_rate_amended duStub "customers" ⟨some "customer_id", []⟩
    (some custValidator) [] (some wDf3)

/-! ## Referential-integrity routing lemmas (claim C2) -/

theorem splitGo_quar_mem (v : Validator) (o : DRow → List ErrEntry) :
    ∀ (rows : List DRow) (i : Nat) (q : QRec), q ∈ (splitGo v o i rows).2 →
      ∃ j r, rows.get? j = some r ∧ q.row_index = i + j ∧ q.record = r.cells ∧
        ((o r ≠ [] ∧ q.errors = o r) ∨
         (o r = [] ∧ ∃ es, v r = .error es ∧ q.errors = es)) := by
  intro rows
  induction rows with
  | nil => intro i q hq; simp [splitGo] at hq
  | cons r0 rs ih =>
    intro i q hq
    simp only [splitGo, routeRow] at hq
    by_cases ho : o r0 ≠ []
    · rw [if_pos ho] at hq
      rcases List.mem_cons.mp hq with hq | hq
      · exact ⟨0, r0, rfl, by simp [hq], by simp [hq], Or.inl ⟨ho, by simp [hq]⟩⟩
      · obtain ⟨j, r, h1, h2, h3, h4⟩ := ih (i + 1) q hq
        exact ⟨j + 1, r, by simpa using h1, by omega, h3, h4⟩
    · rw [if_neg ho] at hq
      push_neg at ho
      cases hv : v r0 with
      | ok out =>
        rw [hv] at hq
        obtain ⟨j, r, h1, h2, h3, h4⟩ := ih (i + 1) q hq
        exact ⟨j + 1, r, by simpa using h1, by omega, h3, h4⟩
      | error es =>
        rw [hv] at hq
        rcases List.mem_cons.mp hq with hq | hq
        · exact ⟨0, r0, rfl, by simp [hq], by simp [hq],
            Or.inr ⟨ho, es, hv, by simp [hq]⟩⟩
        · obtain ⟨j, r, h1, h2, h3, h4⟩ := ih (i + 1) q hq
          exact ⟨j + 1, r, by simpa using h1, by omega, h3, h4⟩

theorem splitGo_quar_complete (v : Validator) (o : DRow → List ErrEntry) :
    ∀ (rows : List DRow) (i j : Nat) (r : DRow), rows.get? j = some r → o r ≠ [] →
      (⟨i + j, r.cells, o r⟩ : QRec) ∈ (splitGo v o i rows).2 := by
  intro rows
  induction rows with
  | nil => intro i j r h _; simp at h
  | cons r0 rs ih =>
    intro i j r hget ho
    cases j with
    | zero =>
      simp only [List.get?] at hget
      cases hget
      simp only [splitGo, routeRow, if_pos ho]
      exact List.mem_cons_self _ _
    | succ j0 =>
      have hmem := ih (i + 1) j0 r (by simpa using hget) ho
      have hidx : i + 1 + j0 = i + (j0 + 1) := by omega
      rw [hidx] at hmem
      simp only [splitGo, routeRow]
      by_cases ho0 : o r0 ≠ []
      · rw [if_pos ho0]
        exact List.mem_cons_of_mem _ hmem
      · rw [if_neg ho0]
        cases hv : v r0 with
        | ok out => exact hmem
        | error es => exact List.mem_cons_of_mem _ hmem

theorem fkFieldError_some_inv (cache : KeyCache) (cols : List String) (r : DRow)
    (f : String) (fd : FieldDef) (e : ErrEntry)
    (h : fkFieldError cache cols r f fd = some e) :
    e.field = f ∧ e.etype = "referential_integrity" ∧
    ∃ t, fd.foreign_key = some t ∧ f ∈ cols ∧ cache.find t ≠ [] ∧
      ∃ v, r.get f = some v ∧ v.toStr ≠ "" ∧ v.toStr ∉ cache.find t := by
  unfold fkFieldError at h
  cases hfk : fd.foreign_key with
  | none => rw [hfk] at h; cases h
  | some t =>
    rw [hfk] at h
    dsimp only at h
    by_cases hc : f ∈ cols ∧ cache.find t ≠ []
    · rw [if_pos hc] at h
      cases hv : r.get f with
      | none => rw [hv] at h; cases h
      | some v =>
        rw [hv] at h
        dsimp only at h
        by_cases hv2 : v.toStr ≠ "" ∧ v.toStr ∉ cache.find t
        · rw [if_pos hv2] at h
          cases h
          exact ⟨rfl, rfl, t, rfl, hc.1, hc.2, v, rfl, hv2.1, hv2.2⟩
        · rw [if_neg hv2] at h; cases h
    · rw [if_neg hc] at h; cases h

theorem fkFieldError_some_of (cache : KeyCache) (cols : List String) (r : DRow)
    (f : String) (fd : FieldDef) (t : String) (v : PValue)
    (hfk : fd.foreign_key = some t) (hcol : f ∈ cols) (hne : cache.find t ≠ [])
    (hv : r.get f = some v) (hv1 : v.toStr ≠ "") (hv2 : v.toStr ∉ cache.find t) :
    fkFieldError cache cols r f fd = some ⟨f, "referential_integrity", riMsg t f v⟩ := by
  unfold fkFieldError
  rw [hfk]
  dsimp only
  rw [if_pos ⟨hcol, hne⟩, hv]
  dsimp only
  rw [if_pos ⟨hv1, hv2⟩]

theorem assoc_nodup_eq {l : List (String × FieldDef)}
    (hn : (l.map Prod.fst).Nodup) {a : String} {b c : FieldDef}
    (h1 : (a, b) ∈ l) (h2 : (a, c) ∈ l) : b = c := by
  induction l with
  | nil => simp at h1
  | cons p ps ih =>
    obtain ⟨pa, pb⟩ := p
    simp only [List.map_cons, List.nodup_cons] at hn
    rcases List.mem_cons.mp h1 with e1 | m1 <;> rcases List.mem_cons.mp h2 with e2 | m2
    · simp only [Prod.mk.injEq] at e1 e2
      exact e1.2.trans e2.2.symm
    · simp only [Prod.mk.injEq] at e1
      exact absurd (List.mem_map.mpr ⟨(a, c), m2, e1.1⟩) hn.1
    · simp only [Prod.mk.injEq] at e2
      exact absurd (List.mem_map.mpr ⟨(a, b), m1, e2.1⟩) hn.1
    · exact ih hn.2 m1 m2

/-- Claim C2: with a registered schema, a post-dedup row carries a
referential-integrity quarantine error on a declared foreign-key field iff
that field's value is non-empty, the key cache of the foreign-key target is
non-empty, and the value is absent from that cache; with an empty target
cache the check is skipped and no row is flagged on that field's account.
(The Pydantic validators never emit the `referential_integrity` kind, which
the `hnoRI` hypothesis records.) -/
theorem c2_fk_quarantine_iff (du : DUParse) (sn : String) (sd : SchemaDef)
    (validate : Validator) (cache : KeyCache) (df0 : DFrame)
    (hnoRI : ∀ r es, validate r = .error es → ∀ e ∈ es, e.etype ≠ "referential_integrity")
    (hnodup : (sd.fields.map Prod.fst).Nodup)
    (fname : String) (fdef : FieldDef) (tgt : String)
    (hmem : (fname, fdef) ∈ sd.fields) (hfk : fdef.foreign_key = some tgt)
    (i : Nat) (r : DRow)
    (hrow : (dedupStep sd.primary_key (applyCleaning du df0 sd.fields).1).rows.get? i
      = some r) :
    (∃ q ∈ (processSource du sn sd (some validate) cache (some df0)).quarantine,
        q.row_index = i ∧
        ∃ e ∈ q.errors, e.etype = "referential_integrity" ∧ e.field = fname) ↔
    (cache.find tgt ≠ [] ∧
      fname ∈ (dedupStep sd.primary_key (applyCleaning du df0 sd.fields).1).colNames ∧
      ∃ v, r.get fname = some v ∧ v.toStr ≠ "" ∧ v.toStr ∉ cache.find tgt) := by
  have hquar : (processSource du sn sd (some validate) cache (some df0)).quarantine
      = (splitGo validate
          (fun r => fkErrorsRow sd.fields cache
            (dedupStep sd.primary_key (applyCleaning du df0 sd.fields).1).colNames r)
          0 (dedupStep sd.primary_key (applyCleaning du df0 sd.fields).1).rows).2 := rfl
  constructor
  · rintro ⟨q, hq, hidx, e, he, heRI, hef⟩
    rw [hquar] at hq
    obtain ⟨j, r', hget, hqidx, hrec, hbr⟩ := splitGo_quar_mem validate _ _ 0 q hq
    have hj : j = i := by omega
    subst hj
    have hr : r' = r := by
      have := hget.symm.trans hrow
      exact Option.some_injective _ this
    subst hr
    rcases hbr with ⟨ho, herr⟩ | ⟨ho, es, hv, herr⟩
    · rw [herr] at he
      obtain ⟨p, hp, hfe⟩ := List.mem_filterMap.mp he
      obtain ⟨hef2, _, t, hfk2, hcol2, hne2, v, hv, hv1, hv2⟩ :=
        fkFieldError_some_inv _ _ _ _ _ _ hfe
      have hp2 : (fname, p.2) ∈ sd.fields := by
        have : p = (fname, p.2) := by
          rw [← hef, hef2]
        rw [← this]
        exact hp
      have hpd : fdef = p.2 := assoc_nodup_eq hnodup hmem hp2
      rw [← hpd] at hfk2
      rw [hfk] at hfk2
      have ht : tgt = t := Option.some_injective _ hfk2
      subst ht
      have hp1 : p.1 = fname := hef2.symm.trans hef
      rw [hp1] at hcol2 hv
      exact ⟨hne2, hcol2, v, hv, hv1, hv2⟩
    · rw [herr] at he
      exact absurd heRI (hnoRI r' es hv e he)
  · rintro ⟨hne, hcol, v, hv, hv1, hv2⟩
    have hfe := fkFieldError_some_of cache
      (dedupStep sd.primary_key (applyCleaning du df0 sd.fields).1).colNames r
      fname fdef tgt v hfk hcol hne hv hv1 hv2
    have hemem : (⟨fname, "referential_integrity", riMsg tgt fname v⟩ : ErrEntry)
        ∈ fkErrorsRow sd.fields cache
          (dedupStep sd.primary_key (applyCleaning du df0 sd.fields).1).colNames r :=
      List.mem_filterMap.mpr ⟨(fname, fdef), hmem, hfe⟩
    have hone : fkErrorsRow sd.fields cache
        (dedupStep sd.primary_key (applyCleaning du df0 sd.fields).1).colNames r ≠ [] := by
      intro h0
      rw [h0] at hemem
      simp at hemem
    have hq := splitGo_quar_complete validate
      (fun r => fkErrorsRow sd.fields cache
        (dedupStep sd.primary_key (applyCleaning du df0 sd.fields).1).colNames r)
      (dedupStep sd.primary_key (applyCleaning du df0 sd.fields).1).rows 0 i r hrow hone
    rw [Nat.zero_add] at hq
    refine ⟨⟨i, r.cells, fkErrorsRow sd.fields cache
        (dedupStep sd.primary_key (applyCleaning du df0 sd.fields).1).colNames r⟩, ?_, rfl,
      ⟨fname, "referential_integrity", riMsg tgt fname v⟩, hemem, rfl, rfl⟩
    rw [hquar]
    exact hq

/-- A validator that accepts every row (used to instantiate C2's schema
slot). -/
def okValidator : Validator := fun r => .ok r

/-- Product schema fragment declaring the `vendor_id → vendor` foreign key. -/
def wSd2 : SchemaDef :=
  ⟨some "product_id",
   [("product_id", ⟨none, none⟩), ("vendor_id", ⟨some "vendor", none⟩)]⟩

/-- A key cache where the vendor entity has published one valid key. -/
def wCache2 : KeyCache := [("vendor", ["VND-1"])]

/-- A product row referencing the dangling vendor `VND-999`. -/
def wRow2 : DRow :=
  ⟨[("product_id", some (.s "PRD-1")), ("vendor_id", some (.s "VND-999"))]⟩

/-- A one-row product frame. -/
def wDf2 : DFrame := ⟨[("product_id", .str), ("vendor_id", .str)], [wRow2]⟩

/-- Witness for claim C2 at a concrete input: a product row with a dangling
`vendor_id` against a non-empty vendor cache. -/
theorem c2_fk_quarantine_iff_witness :
    ((wSd2.fields.map Prod.fst).Nodup ∧
     ("vendor_id", (⟨some "vendor", none⟩ : FieldDef)) ∈ wSd2.fields ∧
     (dedupStep wSd2.primary_key (applyCleaning duStub wDf2 wSd2.fields).1).rows.get? 0
       = some wRow2) ∧
    ((∃ q ∈ (processSource duStub "products" wSd2 (some okValidator) wCache2
          (some wDf2)).quarantine,
        q.row_index = 0 ∧
        ∃ e ∈ q.errors, e.etype = "referential_integrity" ∧ e.field = "vendor_id") ↔
     (wCache2.find "vendor" ≠ [] ∧
      "vendor_id" ∈ (dedupStep wSd2.primary_key
        (applyCleaning duStub wDf2 wSd2.fields).1).colNames ∧
      ∃ v, wRow2.get "vendor_id" = some v ∧ v.toStr ≠ "" ∧
        v.toStr ∉ wCache2.find "vendor")) :=
  ⟨⟨by decide, by decide, by decide⟩,
   c2_fk_quarantine_iff duStub "products" wSd2 okValidator wCache2 wDf2
     (fun _ _ h => nomatch h) (by decide) "vendor_id" ⟨some "vendor", none⟩ "vendor"
     (by decide) rfl 0 wRow2 (by decide)⟩

/-! ## Line-item extraction lemmas (claims C4 and C10) -/

theorem lookup_overwrite (k : String) (v : Cell) :
    ∀ (l : List (String × Cell)), (l.lookup k).isSome →
      (l.map fun kv => if kv.1 = k then (kv.1, v) else kv).lookup k = some v := by
  intro l
  induction l with
  | nil => intro h; simp [List.lookup] at h
  | cons p ps ih =>
    obtain ⟨pk, pv⟩ := p
    intro h
    by_cases hp : pk = k
    · subst hp
      simp only [List.map_cons]
      rw [if_pos trivial]
      simp [List.lookup]
    · have hb : (k == pk) = false := by
        simp only [beq_eq_false_iff_ne, ne_eq]
        exact fun he => hp he.symm
      simp only [List.lookup, hb] at h
      simp only [List.map_cons]
      have hpk : ((pk, pv).1 = k) = False := by
        simp only [eq_iff_iff, iff_false]
        exact hp
      rw [if_neg (by exact hp : ¬ (pk, pv).1 = k)]
      simp only [List.lookup, hb]
      exact ih h

theorem lookup_append_single (k : String) (v : Cell) :
    ∀ (l : List (String × Cell)), (l.lookup k) = none →
      (l ++ [(k, v)]).lookup k = some v := by
  intro l
  induction l with
  | nil => intro _; simp [List.lookup]
  | cons p ps ih =>
    intro h
    simp only [List.lookup, List.cons_append] at h ⊢
    cases hb : (k == p.1) with
    | true => rw [hb] at h; cases h
    | false => rw [hb] at h; exact ih h

theorem DRow.get_put_self (r : DRow) (k : String) (v : Cell) :
    (r.put k v).get k = v := by
  unfold DRow.put DRow.get
  by_cases h : (r.cells.lookup k).isSome
  · rw [if_pos h]
    simp only [lookup_overwrite k v r.cells h]
  · rw [if_neg h]
    have hn : r.cells.lookup k = none := Option.not_isSome_iff_eq_none.mp h
    simp only [lookup_append_single k v r.cells hn]

theorem lookup_map_ne (k k2 : String) (v : Cell) (hne : k ≠ k2) :
    ∀ (l : List (String × Cell)),
      (l.map fun kv => if kv.1 = k then (kv.1, v) else kv).lookup k2 = l.lookup k2 := by
  intro l
  induction l with
  | nil => simp
  | cons p ps ih =>
    obtain ⟨pk, pv⟩ := p
    simp only [List.map_cons]
    by_cases hp : pk = k
    · subst hp
      have hb : (k2 == pk) = false := by
        simp only [beq_eq_false_iff_ne, ne_eq]
        exact fun he => hne he.symm
      rw [if_pos (by exact rfl : (pk, pv).1 = pk)]
      simp only [List.lookup, hb, ih]
    · rw [if_neg (by exact hp : ¬ (pk, pv).1 = k)]
      simp only [List.lookup, ih]

theorem lookup_append_single_ne (k k2 : String) (v : Cell) (hne : k ≠ k2) :
    ∀ (l : List (String × Cell)), (l ++ [(k, v)]).lookup k2 = l.lookup k2 := by
  intro l
  induction l with
  | nil =>
    have hb : (k2 == k) = false := by
      simp [beq_iff_eq]
      exact fun he => hne he.symm
    simp [List.lookup, hb]
  | cons p ps ih =>
    simp only [List.cons_append, List.lookup]
    cases k2 == p.1 with
    | true => rfl
    | false => exact ih

theorem DRow.get_put_ne (r : DRow) (k k2 : String) (v : Cell) (hne : k ≠ k2) :
    (r.put k v).get k2 = r.get k2 := by
  unfold DRow.put DRow.get
  by_cases h : (r.cells.lookup k).isSome
  · rw [if_pos h]
    simp only [lookup_map_ne k k2 v hne r.cells]
  · rw [if_neg h]
    simp only [lookup_append_single_ne k k2 v hne r.cells]

theorem stampItem_get_inv_id (idv sf la : Cell) (it : DRow) :
    (stampItem idv sf la it).get "invoice_id" = idv := by
  unfold stampItem
  have h1 : (it.put "invoice_id" idv).get "invoice_id" = idv :=
    DRow.get_put_self it "invoice_id" idv
  by_cases hsf : cellTruthy sf = true <;> by_cases hla : cellTruthy la = true <;>
    simp [hsf, hla, DRow.get_put_ne _ "_source_file" "invoice_id" _ (by decide),
      DRow.get_put_ne _ "_loaded_at" "invoice_id" _ (by decide), h1]

theorem errsOf_nil {α : Type} (e : Except ErrEntry α) (h : errsOf e = []) :
    ∃ a, e = .ok a := by
  cases e with
  | ok a => exact ⟨a, rfl⟩
  | error e => simp [errsOf] at h

theorem coeReqStr_ok (f : String) (c : Cell) (v : String)
    (h : coeReqStr f c = .ok v) : c = some (.s v) := by
  cases c with
  | none => cases h
  | some pv =>
    cases pv with
    | s x => cases h; rfl
    | i x => cases h
    | q x => cases h
    | b x => cases h

theorem validateLineItem_ok_inv_id (r out : DRow)
    (h : validateLineItem r = .ok out) :
    ∃ s, r.get "invoice_id" = some (.s s) ∧ out.get "invoice_id" = some (.s s) := by
  simp only [validateLineItem] at h
  split at h
  case isTrue hE =>
    simp only [List.append_eq_nil] at hE
    have h1 : errsOf (coeReqStr "invoice_id" (r.get "invoice_id")) = [] :=
      hE.1.1.1.1.1.1.1.1
    obtain ⟨v, hok⟩ := errsOf_nil _ h1
    have hc := coeReqStr_ok _ _ _ hok
    refine ⟨v, hc, ?_⟩
    cases h
    rw [hok]
    simp [dumpLineItem, DRow.get, List.lookup, exVal]
  case isFalse => cases h

theorem liGo_valid_mem (idv sf la : Cell) :
    ∀ (items : List DRow) (idx : Nat) (it : DRow), it ∈ (liGo idv sf la idx items).1 →
      ∃ it0 ∈ items, validateLineItem (stampItem idv sf la it0) = .ok it := by
  intro items
  induction items with
  | nil => intro idx it h; simp [liGo] at h
  | cons x xs ih =>
    intro idx it h
    simp only [liGo] at h
    cases hv : validateLineItem (stampItem idv sf la x) with
    | ok out =>
      rw [hv] at h
      rcases List.mem_cons.mp h with h | h
      · exact ⟨x, List.mem_cons_self _ _, by rw [hv, h]⟩
      · obtain ⟨it0, hm, ho⟩ := ih (idx + 1) it h
        exact ⟨it0, List.mem_cons_of_mem _ hm, ho⟩
    | error es =>
      rw [hv] at h
      obtain ⟨it0, hm, ho⟩ := ih (idx + 1) it h
      exact ⟨it0, List.mem_cons_of_mem _ hm, ho⟩

theorem liGo_quar_mem (idv sf la : Cell) :
    ∀ (items : List DRow) (idx : Nat) (q : QRec), q ∈ (liGo idv sf la idx items).2 →
      ∃ it0 ∈ items, ∃ es, validateLineItem (stampItem idv sf la it0) = .error es ∧
        q.record = (stampItem idv sf la it0).cells ∧ q.errors = es := by
  intro items
  induction items with
  | nil => intro idx q h; simp [liGo] at h
  | cons x xs ih =>
    intro idx q h
    simp only [liGo] at h
    cases hv : validateLineItem (stampItem idv sf la x) with
    | ok out =>
      rw [hv] at h
      obtain ⟨it0, hm, hrest⟩ := ih (idx + 1) q h
      exact ⟨it0, List.mem_cons_of_mem _ hm, hrest⟩
    | error es =>
      rw [hv] at h
      rcases List.mem_cons.mp h with h | h
      · exact ⟨x, List.mem_cons_self _ _, es, hv, by rw [h], by rw [h]⟩
      · obtain ⟨it0, hm, hrest⟩ := ih (idx + 1) q h
        exact ⟨it0, List.mem_cons_of_mem _ hm, hrest⟩

theorem liGo_length (idv sf la : Cell) :
    ∀ (items : List DRow) (idx : Nat),
      (liGo idv sf la idx items).1.length + (liGo idv sf la idx items).2.length
        = items.length := by
  intro items
  induction items with
  | nil => intro idx; rfl
  | cons x xs ih =>
    intro idx
    have h := ih (idx + 1)
    simp only [liGo]
    cases validateLineItem (stampItem idv sf la x) <;>
      simp only [List.length_cons] <;> omega

theorem emitRow_valid_inv (pj : ParseItems) (ids : List String) (r : DRow) :
    ∀ it ∈ (emitRow pj ids r).1,
      ∃ pv, it.get "invoice_id" = some pv ∧ pv.toStr ∈ ids := by
  intro it h
  unfold emitRow at h
  dsimp only at h
  split at h
  · simp at h
  · cases hid : r.get "invoice_id" with
    | none => rw [hid] at h; simp at h
    | some pid =>
      rw [hid] at h
      dsimp only at h
      by_cases hin : pid.toStr ∉ ids
      · rw [if_pos hin] at h; simp at h
      · rw [if_neg hin] at h
        push_neg at hin
        cases hraw : r.get "line_items_json" with
        | none => rw [hraw] at h; simp at h
        | some rv =>
          rw [hraw] at h
          cases rv with
          | s payload =>
            dsimp only at h
            cases hpj : pj payload with
            | none => rw [hpj] at h; simp at h
            | some items =>
              rw [hpj] at h
              obtain ⟨it0, _, hok⟩ := liGo_valid_mem _ _ _ items 0 it h
              obtain ⟨s, hs1, hs2⟩ := validateLineItem_ok_inv_id _ _ hok
              rw [stampItem_get_inv_id] at hs1
              have hpid : pid = .s s := Option.some_injective _ hs1
              refine ⟨.s s, hs2, ?_⟩
              rw [hpid] at hin
              simpa [PValue.toStr] using hin
          | i x => dsimp only at h; simp at h
          | q x => dsimp only at h; simp at h
          | b x => dsimp only at h; simp at h

theorem emitRow_quar_inv (pj : ParseItems) (ids : List String) (r : DRow) :
    ∀ q ∈ (emitRow pj ids r).2,
      ∃ pv, (DRow.mk q.record).get "invoice_id" = some pv ∧ pv.toStr ∈ ids := by
  intro q h
  unfold emitRow at h
  dsimp only at h
  split at h
  · simp at h
  · cases hid : r.get "invoice_id" with
    | none => rw [hid] at h; simp at h
    | some pid =>
      rw [hid] at h
      dsimp only at h
      by_cases hin : pid.toStr ∉ ids
      · rw [if_pos hin] at h; simp at h
      · rw [if_neg hin] at h
        push_neg at hin
        cases hraw : r.get "line_items_json" with
        | none => rw [hraw] at h; simp at h
        | some rv =>
          rw [hraw] at h
          cases rv with
          | s payload =>
            dsimp only at h
            cases hpj : pj payload with
            | none => rw [hpj] at h; simp at h
            | some items =>
              rw [hpj] at h
              obtain ⟨it0, _, es, _, hrec, _⟩ := liGo_quar_mem _ _ _ items 0 q h
              refine ⟨pid, ?_, hin⟩
              have : DRow.mk q.record = stampItem (some pid) (r.get "_source_file")
                  (r.get "_loaded_at") it0 := by
                rw [hrec]
              rw [this, stampItem_get_inv_id]
          | i x => dsimp only at h; simp at h
          | q x => dsimp only at h; simp at h
          | b x => dsimp only at h; simp at h

theorem emitRow_skip (pj : ParseItems) (ids : List String) (r : DRow) (pid : PValue)
    (hid : r.get "invoice_id" = some pid) (hnotin : pid.toStr ∉ ids) :
    emitRow pj ids r = ([], []) := by
  unfold emitRow
  dsimp only
  split
  · rfl
  · rw [hid]
    dsimp only
    rw [if_pos hnotin]

theorem extractLineItems_append (pj : ParseItems) (ids : List String) :
    ∀ (l1 l2 : List DRow),
      extractLineItems pj ids (l1 ++ l2) =
        ((extractLineItems pj ids l1).1 ++ (extractLineItems pj ids l2).1,
         (extractLineItems pj ids l1).2 ++ (extractLineItems pj ids l2).2) := by
  intro l1 l2
  induction l1 with
  | nil => simp [extractLineItems]
  | cons r rs ih =>
    simp only [List.cons_append, extractLineItems, List.append_eq, ih, List.append_assoc]

theorem extractLineItems_valid_mem (pj : ParseItems) (ids : List String) :
    ∀ (rows : List DRow) (it : DRow), it ∈ (extractLineItems pj ids rows).1 →
      ∃ r ∈ rows, it ∈ (emitRow pj ids r).1 := by
  intro rows
  induction rows with
  | nil => intro it h; simp [extractLineItems] at h
  | cons r rs ih =>
    intro it h
    simp only [extractLineItems] at h
    rcases List.mem_append.mp h with h | h
    · exact ⟨r, List.mem_cons_self _ _, h⟩
    · obtain ⟨r0, hm, hit⟩ := ih it h
      exact ⟨r0, List.mem_cons_of_mem _ hm, hit⟩

theorem extractLineItems_quar_mem (pj : ParseItems) (ids : List String) :
    ∀ (rows : List DRow) (q : QRec), q ∈ (extractLineItems pj ids rows).2 →
      ∃ r ∈ rows, q ∈ (emitRow pj ids r).2 := by
  intro rows
  induction rows with
  | nil => intro q h; simp [extractLineItems] at h
  | cons r rs ih =>
    intro q h
    simp only [extractLineItems] at h
    rcases List.mem_append.mp h with h | h
    · exact ⟨r, List.mem_cons_self _ _, h⟩
    · obtain ⟨r0, hm, hq⟩ := ih q h
      exact ⟨r0, List.mem_cons_of_mem _ hm, hq⟩

/-- Claim C4: the line-item stage runs only when the Invoice entity produced
at least one valid record, and every emitted child — valid or quarantined —
carries an `invoice_id` from the validated Invoice output; a Bronze invoice
row whose `invoice_id` is not in the valid set contributes zero line items
(no orphaned-child output), even when its embedded array parses cleanly. -/
theorem c4_line_items_only_valid_parents (pj : ParseItems) (bronze : DFrame)
    (inv : SourceOutcome) :
    (inv.result.valid_records = 0 → lineItemStage pj bronze inv = ([], [])) ∧
    (∀ it ∈ (lineItemStage pj bronze inv).1,
      ∃ pv, it.get "invoice_id" = some pv ∧ pv.toStr ∈ validIdsOf inv.validRows) ∧
    (∀ q ∈ (lineItemStage pj bronze inv).2,
      ∃ pv, (DRow.mk q.record).get "invoice_id" = some pv ∧
        pv.toStr ∈ validIdsOf inv.validRows) ∧
    (∀ r ∈ bronze.rows, ∀ pid, r.get "invoice_id" = some pid →
      pid.toStr ∉ validIdsOf inv.validRows →
      emitRow pj (validIdsOf inv.validRows) r = ([], [])) := by
  refine ⟨?_, ?_, ?_, ?_⟩
  · intro h0
    simp [lineItemStage, h0]
  · intro it h
    unfold lineItemStage at h
    split at h
    · split at h
      · obtain ⟨r0, _, hit⟩ := extractLineItems_valid_mem pj _ bronze.rows it h
        exact emitRow_valid_inv pj _ r0 it hit
      · simp at h
    · simp at h
  · intro q h
    unfold lineItemStage at h
    split at h
    · split at h
      · obtain ⟨r0, _, hq⟩ := extractLineItems_quar_mem pj _ bronze.rows q h
        exact emitRow_quar_inv pj _ r0 q hq
      · simp at h
    · simp at h
  · intro r _ pid hid hnotin
    exact emitRow_skip pj _ r pid hid hnotin

/-- Claim C10: extraction re-reads the pre-dedup Bronze rows and filters each
occurrence independently on `invoice_id` membership, so emission distributes
over row concatenation, and every qualifying occurrence (truthy key in the
valid set, truthy payload that decodes) yields exactly one child per array
element across the valid and quarantine buckets — a duplicated parent row
yields its line items once per occurrence. -/
theorem c10_duplicate_parent_repeats (pj : ParseItems) (ids : List String) :
    (∀ l1 l2 : List DRow,
      extractLineItems pj ids (l1 ++ l2) =
        ((extractLineItems pj ids l1).1 ++ (extractLineItems pj ids l2).1,
         (extractLineItems pj ids l1).2 ++ (extractLineItems pj ids l2).2)) ∧
    (∀ (r : DRow) (pid : PValue) (payload : String) (items : List DRow),
      r.get "invoice_id" = some pid → pid.truthy = true →
      pid.toStr ∈ ids →
      r.get "line_items_json" = some (.s payload) → payload ≠ "" →
      pj payload = some items →
      (emitRow pj ids r).1.length + (emitRow pj ids r).2.length = items.length) := by
  refine ⟨extractLineItems_append pj ids, ?_⟩
  intro r pid payload items hid htr hin hraw hpay hpj
  unfold emitRow
  dsimp only
  rw [hid, hraw]
  have hcond : ¬ (¬ cellTruthy (some (PValue.s payload)) = true ∨
      ¬ cellTruthy (some pid) = true) := by
    push_neg
    constructor
    · simp [cellTruthy, PValue.truthy, hpay]
    · simpa [cellTruthy] using htr
  rw [if_neg hcond]
  dsimp only
  rw [if_neg (by simpa using hin)]
  rw [hpj]
  exact liGo_length _ _ _ items 0

/-- A two-element embedded line-item array payload. -/
def wPayload : String := "[\x7b\"line_number\": 1\x7d, \x7b\"line_number\": 2\x7d]"

/-- First decoded line item. -/
def wItem1 : DRow := ⟨[("line_number", some (.i 1)), ("product_id", some (.s "PRD-1"))]⟩

/-- Second decoded line item. -/
def wItem2 : DRow := ⟨[("line_number", some (.i 2))]⟩

/-- A `json.loads` oracle decoding exactly the fixture payload. -/
def wPj : ParseItems := fun s => if s = wPayload then some [wItem1, wItem2] else none

/-- A Bronze invoice row whose parent key is in the valid set. -/
def wInvRow : DRow :=
  ⟨[("invoice_id", some (.s "INV-A1")), ("line_items_json", some (.s wPayload)),
    ("_source_file", some (.s "invoices.json"))]⟩

/-- A Bronze invoice row whose parent key was rejected in Silver. -/
def wBadRow : DRow :=
  ⟨[("invoice_id", some (.s "INV-XX")), ("line_items_json", some (.s wPayload))]⟩

/-- The Bronze invoice frame, with the valid parent duplicated. -/
def wBronze : DFrame :=
  ⟨[("invoice_id", .str), ("line_items_json", .str), ("_source_file", .str)],
   [wInvRow, wInvRow, wBadRow]⟩

/-- The Invoice stage outcome feeding the extractor: one validated invoice. -/
def wInvOutcome : SourceOutcome :=
  { result := { source_name := "invoices", total_records := 3, valid_records := 1,
                quarantined_records := 1, duplicates_removed := 1 }
    validRows := [⟨[("invoice_id", some (.s "INV-A1"))]⟩]
    cacheKeys := some ["INV-A1"] }

/-- Witness for claim C4 at a concrete input: the rejected parent `INV-XX`
contributes zero line items although its payload decodes cleanly. -/
theorem c4_line_items_only_valid_parents_witness :
    (wBadRow ∈ wBronze.rows ∧ wBadRow.get "invoice_id" = some (.s "INV-XX") ∧
     (PValue.s "INV-XX").toStr ∉ validIdsOf wInvOutcome.validRows) ∧
    emitRow wPj (validIdsOf wInvOutcome.validRows) wBadRow = ([], []) :=
  ⟨⟨by decide, by decide, by decide⟩,
   (c4_line_items_only_valid_parents wPj wBronze wInvOutcome).2.2.2 wBadRow
     (by decide) (.s "INV-XX") (by decide) (by decide)⟩

/-- Witness for claim C10 at a concrete input: each occurrence of the valid
parent emits one child per array element (two here), so its duplication in
Bronze doubles the emission. -/
theorem c10_duplicate_parent_repeats_witness :
    (wInvRow.get "invoice_id" = some (.s "INV-A1") ∧
     (PValue.s "INV-A1").truthy = true ∧
     (PValue.s "INV-A1").toStr ∈ validIdsOf wInvOutcome.validRows ∧
     wInvRow.get "line_items_json" = some (.s wPayload) ∧ wPayload ≠ "" ∧
     wPj wPayload = some [wItem1, wItem2]) ∧
    (emitRow wPj (validIdsOf wInvOutcome.validRows) wInvRow).1.length +
      (emitRow wPj (validIdsOf wInvOutcome.validRows) wInvRow).2.length = 2 :=
  ⟨⟨by decide, by decide, by decide, by decide, by decide, by decide⟩,
   (c10_duplicate_parent_repeats wPj (validIdsOf wInvOutcome.validRows)).2 wInvRow
     (.s "INV-A1") wPayload [wItem1, wItem2]
     (by decide) (by decide) (by decide) (by decide) (by decide) (by decide)⟩

/-! ## Cleaning statistics (claim C5) -/

theorem lookup_none_of_not_mem (k : String) :
    ∀ (l : List (String × Nat)), k ∉ l.map Prod.fst → l.lookup k = none := by
  intro l
  induction l with
  | nil => intro _; rfl
  | cons p ps ih =>
    intro h
    simp only [List.map_cons, List.mem_cons] at h
    push_neg at h
    have hb : (k == p.1) = false := by
      simp only [beq_eq_false_iff_ne, ne_eq]
      exact h.1
    simp only [List.lookup, hb]
    exact ih h.2

theorem bumpCount_fresh (stats : List (String × Nat)) (k : String)
    (h : stats.lookup k = none) : bumpCount stats k = stats ++ [(k, 1)] := by
  unfold bumpCount
  rw [h]

theorem cleanField_stats (du : DUParse) (df : DFrame) (stats : List (String × Nat))
    (f : String) (fd : FieldDef) :
    (cleanField du df stats f fd).2 = stats ∨
    (cleanField du df stats f fd).2 = bumpCount stats f := by
  unfold cleanField
  split
  · exact Or.inl rfl
  · split
    · exact Or.inl rfl
    · split
      · split
        · exact Or.inr rfl
        · exact Or.inl rfl
      · split
        · split
          · exact Or.inr rfl
          · exact Or.inl rfl
        · split
          · split
            · exact Or.inr rfl
            · exact Or.inl rfl
          · split
            · split
              · exact Or.inr rfl
              · exact Or.inl rfl
            · split
              · split
                · exact Or.inr rfl
                · exact Or.inl rfl
              · exact Or.inl rfl

theorem foldClean_stats_ones (du : DUParse) :
    ∀ (fs : List (String × FieldDef)) (df : DFrame) (stats : List (String × Nat)),
      (∀ p ∈ stats, p.2 = 1) →
      (∀ p ∈ stats, p.1 ∉ fs.map Prod.fst) →
      (fs.map Prod.fst).Nodup →
      ∀ p ∈ (fs.foldl (fun acc q => cleanField du acc.1 acc.2 q.1 q.2) (df, stats)).2,
        p.2 = 1 := by
  intro fs
  induction fs with
  | nil => intro df stats h1 _ _ p hp; exact h1 p hp
  | cons q qs ih =>
    intro df stats h1 h2 hnd p hp
    rw [List.foldl_cons] at hp
    simp only [List.map_cons, List.nodup_cons] at hnd
    rcases cleanField_stats du df stats q.1 q.2 with hs | hs
    · refine ih (cleanField du df stats q.1 q.2).1 (cleanField du df stats q.1 q.2).2
        ?_ ?_ hnd.2 p ?_
      · rw [hs]; exact h1
      · rw [hs]
        intro p0 hp0
        have := h2 p0 hp0
        simp only [List.map_cons, List.mem_cons] at this
        push_neg at this
        exact this.2
      · exact hp
    · have hlk : stats.lookup q.1 = none := by
        apply lookup_none_of_not_mem
        intro hmem
        obtain ⟨p0, hp0, hpe⟩ := List.mem_map.mp hmem
        have := h2 p0 hp0
        simp only [List.map_cons, List.mem_cons] at this
        push_neg at this
        exact this.1 hpe
      rw [bumpCount_fresh stats q.1 hlk] at hs
      refine ih (cleanField du df stats q.1 q.2).1 (cleanField du df stats q.1 q.2).2
        ?_ ?_ hnd.2 p ?_
      · rw [hs]
        intro p0 hp0
        rcases List.mem_append.mp hp0 with hm | hm
        · exact h1 p0 hm
        · simp only [List.mem_singleton] at hm
          rw [hm]
      · rw [hs]
        intro p0 hp0
        rcases List.mem_append.mp hp0 with hm | hm
        · have := h2 p0 hm
          simp only [List.map_cons, List.mem_cons] at this
          push_neg at this
          exact this.2
        · simp only [List.mem_singleton] at hm
          rw [hm]
          exact hnd.1
      · exact hp

/-- Claim C5 (amended): `fields_cleaned` maps each field whose declared clean
rule was applied to its string-typed column to the constant `1` — a
per-column applied flag — not to the number of rows whose value the rule
changed. -/
theorem c5_fields_cleaned_amended (du : DUParse) (df : DFrame)
    (fs : List (String × FieldDef)) (hnodup : (fs.map Prod.fst).Nodup) :
    ∀ p ∈ (applyCleaning du df fs).2, p.2 = 1 := by
  intro p hp
  exact foldClean_stats_ones du fs df [] (by intro p0 h0; cases h0)
    (by intro p0 h0; cases h0) hnodup p hp

/-- Number of rows whose cell under `f` differs between two frames (the
"count of rows changed" the claim speaks of). -/
def rowsChanged (df df2 : DFrame) (f : String) : Nat :=
  ((df.rows.zip df2.rows).filter fun rr => rr.1.get f ≠ rr.2.get f).length

/-- A two-row frame whose `status` column changes on both rows under the
`lowercase` rule. -/
def wDf5 : DFrame :=
  ⟨[("status", .str)],
   [⟨[("status", some (.s "ACTIVE"))]⟩, ⟨[("status", some (.s "Open"))]⟩]⟩

/-- The schema fields declaring the `lowercase` clean rule on `status`. -/
def wFs5 : List (String × FieldDef) := [("status", ⟨none, some "lowercase"⟩)]

/-- Counterexample to claim C5 as stated: cleaning changes two rows of the
`status` column, yet `fields_cleaned` records `1` for the field — the map
holds an applied flag, not the count of changed rows. -/
theorem c5_counterexample :
    rowsChanged wDf5 (applyCleaning duStub wDf5 wFs5).1 "status" = 2 ∧
    (applyCleaning duStub wDf5 wFs5).2.lookup "status" = some 1 ∧
    (applyCleaning duStub wDf5 wFs5).2.lookup "status" ≠
      some (rowsChanged wDf5 (applyCleaning duStub wDf5 wFs5).1 "status") := by
  refine ⟨by decide, by decide, by decide⟩

/-- Witness for claim C5 (amended) at a concrete input. -/
theorem c5_fields_cleaned_amended_witness :
    ((wFs5.map Prod.fst).Nodup ∧ ("status", 1) ∈ (applyCleaning duStub wDf5 wFs5).2) ∧
    (("status", 1) : String × Nat).2 = 1 :=
  ⟨⟨by decide, by decide⟩,
   c5_fields_cleaned_amended duStub wDf5 wFs5 (by decide) ("status", 1) (by decide)⟩

/-! ## Customer future-date soft-invalidation (claim C7) -/

theorem lookup_some_mem_keys (k : String) (c : Cell) :
    ∀ (l : List (String × Cell)), l.lookup k = some c →
      ∃ pre, l.lookup k = some pre := fun _ h => ⟨c, h⟩

theorem lookup_set_self (k : String) (g : Cell → Cell) (c : Cell) :
    ∀ (l : List (String × Cell)), l.lookup k = some c →
      (l.map fun kv => if kv.1 = k then (kv.1, g kv.2) else kv).lookup k = some (g c) := by
  intro l
  induction l with
  | nil => intro h; cases h
  | cons p ps ih =>
    obtain ⟨pk, pv⟩ := p
    intro h
    by_cases hp : pk = k
    · subst hp
      simp only [List.lookup, beq_self_eq_true] at h
      cases h
      simp only [List.map_cons]
      rw [if_pos trivial]
      simp [List.lookup]
    · have hb : (k == pk) = false := by
        simp only [beq_eq_false_iff_ne, ne_eq]
        exact fun he => hp he.symm
      simp only [List.lookup, hb] at h
      simp only [List.map_cons]
      rw [if_neg (by exact hp : ¬ (pk, pv).1 = k)]
      simp only [List.lookup, hb]
      exact ih h

theorem DRow.get_set_self (r : DRow) (k : String) (g : Cell → Cell) (c : Cell)
    (h : r.cells.lookup k = some c) : (r.set k g).get k = g c := by
  unfold DRow.set DRow.get
  rw [lookup_set_self k g c r.cells h]

theorem DRow.get_set_ne (r : DRow) (k k2 : String) (g : Cell → Cell) (hne : k ≠ k2) :
    (r.set k g).get k2 = r.get k2 := by
  unfold DRow.set DRow.get
  have : (r.cells.map fun kv => if kv.1 = k then (kv.1, g kv.2) else kv).lookup k2
      = r.cells.lookup k2 := by
    induction r.cells with
    | nil => rfl
    | cons p ps ih =>
      obtain ⟨pk, pv⟩ := p
      by_cases hp : pk = k
      · subst hp
        have hb : (k2 == pk) = false := by
          simp only [beq_eq_false_iff_ne, ne_eq]
          exact fun he => hne he.symm
        simp only [List.map_cons]
        rw [if_pos trivial]
        simp only [List.lookup, hb, ih]
      · simp only [List.map_cons]
        rw [if_neg (by exact hp : ¬ (pk, pv).1 = k)]
        simp only [List.lookup, ih]
  rw [this]

theorem dumpCustomer_get_reg (c : Customer) :
    (dumpCustomer c).get "registration_date" = c.registration_date.map .s := rfl

theorem dumpCustomer_get_last (c : Customer) :
    (dumpCustomer c).get "last_purchase_date" = c.last_purchase_date.map .s := rfl

/-- Claim C7: a customer row whose `registration_date` or
`last_purchase_date` parses to a date strictly after today validates exactly
as the same row with that field null — it is never quarantined on that
account, the stored value is nulled, and every other field of the output is
unchanged (the whole results coincide); on success the dumped record holds
`none` there. -/
theorem c7_future_date_soft_invalidation (today : SDate) (du : DUParse) (r : DRow)
    (f : String) (v : String) (d : SDate)
    (hf : f = "registration_date" ∨ f = "last_purchase_date")
    (hv : r.cells.lookup f = some (some (.s v))) (hne : v ≠ "")
    (hp : du false v = .ok d) (hfut : today.before d = true) :
    validateCustomer today du r
      = validateCustomer today du (r.set f (fun _ => none)) ∧
    (∀ out, validateCustomer today du r = .ok out → out.get f = none) := by
  rcases hf with rfl | rfl
  · have hget : r.get "registration_date" = some (.s v) := by
      unfold DRow.get
      rw [hv]
    have hsetself : (r.set "registration_date" (fun _ => none)).get "registration_date"
        = none :=
      DRow.get_set_self r "registration_date" (fun _ => none) (some (.s v)) hv
    have hpipe1 : (coeOptStr "registration_date" (some (PValue.s v))).bind
        (dateNotInFuture "registration_date" today du) = .ok none := by
      simp only [coeOptStr, Except.bind, dateNotInFuture, if_neg hne, hp, if_pos hfut]
    have hpipe2 : (coeOptStr "registration_date" (none : Cell)).bind
        (dateNotInFuture "registration_date" today du) = .ok none := rfl
    have hmain : validateCustomer today du r
        = validateCustomer today du (r.set "registration_date" (fun _ => none)) := by
      unfold validateCustomer
      rw [hget, hsetself, hpipe1, hpipe2]
      rw [DRow.get_set_ne r _ "customer_id" _ (by decide),
          DRow.get_set_ne r _ "full_name" _ (by decide),
          DRow.get_set_ne r _ "first_name" _ (by decide),
          DRow.get_set_ne r _ "last_name" _ (by decide),
          DRow.get_set_ne r _ "email" _ (by decide),
          DRow.get_set_ne r _ "phone" _ (by decide),
          DRow.get_set_ne r _ "gender" _ (by decide),
          DRow.get_set_ne r _ "age" _ (by decide),
          DRow.get_set_ne r _ "date_of_birth" _ (by decide),
          DRow.get_set_ne r _ "address_street" _ (by decide),
          DRow.get_set_ne r _ "address_city" _ (by decide),
          DRow.get_set_ne r _ "address_state" _ (by decide),
          DRow.get_set_ne r _ "address_postal_code" _ (by decide),
          DRow.get_set_ne r _ "address_country" _ (by decide),
          DRow.get_set_ne r _ "segment" _ (by decide),
          DRow.get_set_ne r _ "total_spend" _ (by decide),
          DRow.get_set_ne r _ "last_purchase_date" _ (by decide),
          DRow.get_set_ne r _ "is_active" _ (by decide),
          DRow.get_set_ne r _ "email_verified" _ (by decide),
          DRow.get_set_ne r _ "phone_verified" _ (by decide),
          DRow.get_set_ne r _ "preferences_newsletter" _ (by decide),
          DRow.get_set_ne r _ "preferences_sms_notifications" _ (by decide),
          DRow.get_set_ne r _ "preferences_preferred_language" _ (by decide),
          DRow.get_set_ne r _ "preferences_preferred_currency" _ (by decide),
          DRow.get_set_ne r _ "metadata_source" _ (by decide),
          DRow.get_set_ne r _ "total_orders" _ (by decide),
          DRow.get_set_ne r _ "average_order_value" _ (by decide),
          DRow.get_set_ne r _ "metadata_created_at" _ (by decide),
          DRow.get_set_ne r _ "metadata_updated_at" _ (by decide),
          DRow.get_set_ne r _ "_source_file" _ (by decide),
          DRow.get_set_ne r _ "_loaded_at" _ (by decide)]
    refine ⟨hmain, ?_⟩
    intro out hout
    simp only [validateCustomer] at hout
    split at hout
    case isTrue hE =>
      cases hout
      rw [dumpCustomer_get_reg, hget, hpipe1]
      rfl
    case isFalse => cases hout
  · have hget : r.get "last_purchase_date" = some (.s v) := by
      unfold DRow.get
      rw [hv]
    have hsetself : (r.set "last_purchase_date" (fun _ => none)).get "last_purchase_date"
        = none :=
      DRow.get_set_self r "last_purchase_date" (fun _ => none) (some (.s v)) hv
    have hpipe1 : (coeOptStr "last_purchase_date" (some (PValue.s v))).bind
        (dateNotInFuture "last_purchase_date" today du) = .ok none := by
      simp only [coeOptStr, Except.bind, dateNotInFuture, if_neg hne, hp, if_pos hfut]
    have hpipe2 : (coeOptStr "last_purchase_date" (none : Cell)).bind
        (dateNotInFuture "last_purchase_date" today du) = .ok none := rfl
    have hmain : validateCustomer today du r
        = validateCustomer today du (r.set "last_purchase_date" (fun _ => none)) := by
      unfold validateCustomer
      rw [hget, hsetself, hpipe1, hpipe2]
      rw [DRow.get_set_ne r _ "customer_id" _ (by decide),
          DRow.get_set_ne r _ "full_name" _ (by decide),
          DRow.get_set_ne r _ "first_name" _ (by decide),
          DRow.get_set_ne r _ "last_name" _ (by decide),
          DRow.get_set_ne r _ "email" _ (by decide),
          DRow.get_set_ne r _ "phone" _ (by decide),
          DRow.get_set_ne r _ "gender" _ (by decide),
          DRow.get_set_ne r _ "age" _ (by decide),
          DRow.get_set_ne r _ "date_of_birth" _ (by decide),
          DRow.get_set_ne r _ "address_street" _ (by decide),
          DRow.get_set_ne r _ "address_city" _ (by decide),
          DRow.get_set_ne r _ "address_state" _ (by decide),
          DRow.get_set_ne r _ "address_postal_code" _ (by decide),
          DRow.get_set_ne r _ "address_country" _ (by decide),
          DRow.get_set_ne r _ "segment" _ (by decide),
          DRow.get_set_ne r _ "total_spend" _ (by decide),
          DRow.get_set_ne r _ "registration_date" _ (by decide),
          DRow.get_set_ne r _ "is_active" _ (by decide),
          DRow.get_set_ne r _ "email_verified" _ (by decide),
          DRow.get_set_ne r _ "phone_verified" _ (by decide),
          DRow.get_set_ne r _ "preferences_newsletter" _ (by decide),
          DRow.get_set_ne r _ "preferences_sms_notifications" _ (by decide),
          DRow.get_set_ne r _ "preferences_preferred_language" _ (by decide),
          DRow.get_set_ne r _ "preferences_preferred_currency" _ (by decide),
          DRow.get_set_ne r _ "metadata_source" _ (by decide),
          DRow.get_set_ne r _ "total_orders" _ (by decide),
          DRow.get_set_ne r _ "average_order_value" _ (by decide),
          DRow.get_set_ne r _ "metadata_created_at" _ (by decide),
          DRow.get_set_ne r _ "metadata_updated_at" _ (by decide),
          DRow.get_set_ne r _ "_source_file" _ (by decide),
          DRow.get_set_ne r _ "_loaded_at" _ (by decide)]
    refine ⟨hmain, ?_⟩
    intro out hout
    simp only [validateCustomer] at hout
    split at hout
    case isTrue hE =>
      cases hout
      rw [dumpCustomer_get_last, hget, hpipe1]
      rfl
    case isFalse => cases hout

/-- A date-parse oracle recognizing exactly the fixture date. -/
def wDu7 : DUParse := fun _ s =>
  if s = "2099-12-31" then .ok ⟨2099, 12, 31⟩ else .error "Unknown string format"

/-- An otherwise schema-valid customer row registered — and last purchasing —
on `2099-12-31`. -/
def wCust7 : DRow :=
  ⟨[("customer_id", some (.s "CUS-7")), ("full_name", some (.s "Ada Lovelace")),
    ("registration_date", some (.s "2099-12-31")),
    ("last_purchase_date", some (.s "2099-12-31"))]⟩

/-- Witness for claim C7 at a concrete input: the `2099-12-31` registration
and last-purchase dates each validate exactly like a null one. -/
theorem c7_future_date_soft_invalidation_witness :
    (wCust7.cells.lookup "registration_date" = some (some (.s "2099-12-31")) ∧
     wCust7.cells.lookup "last_purchase_date" = some (some (.s "2099-12-31")) ∧
     ("2099-12-31" : String) ≠ "" ∧
     wDu7 false "2099-12-31" = .ok ⟨2099, 12, 31⟩ ∧
     wToday.before ⟨2099, 12, 31⟩ = true) ∧
    ((validateCustomer wToday wDu7 wCust7
        = validateCustomer wToday wDu7 (wCust7.set "registration_date" (fun _ => none)) ∧
      (∀ out, validateCustomer wToday wDu7 wCust7 = .ok out →
        out.get "registration_date" = none)) ∧
     (validateCustomer wToday wDu7 wCust7
        = validateCustomer wToday wDu7 (wCust7.set "last_purchase_date" (fun _ => none)) ∧
      (∀ out, validateCustomer wToday wDu7 wCust7 = .ok out →
        out.get "last_purchase_date" = none))) :=
  ⟨⟨by decide, by decide, by decide, rfl, by decide⟩,
   c7_future_date_soft_invalidation wToday wDu7 wCust7 "registration_date"
     "2099-12-31" ⟨2099, 12, 31⟩ (Or.inl rfl) (by decide) (by decide) rfl (by decide),
   c7_future_date_soft_invalidation wToday wDu7 wCust7 "last_purchase_date"
     "2099-12-31" ⟨2099, 12, 31⟩ (Or.inr rfl) (by decide) (by decide) rfl (by decide)⟩

/-! ## Date rule of the Column Cleaner (claim C6) -/

theorem parseEpochFloat_nonneg (s : String) : 0 ≤ parseEpochFloat s := by
  unfold parseEpochFloat
  split
  · exact Nat.cast_nonneg _
  · exact add_nonneg (Nat.cast_nonneg _)
      (div_nonneg (Nat.cast_nonneg _) (Nat.cast_nonneg _))
  · exact le_refl 0

/-- Claim C6: the Column Cleaner's *date* rule skips non-string columns and
otherwise maps every cell through `_normalize_date`, which (a) converts a
purely numeric value within the plausible Unix-epoch-seconds range
`[0, 4102444800]` to the calendar date of `fromtimestamp`, (b) otherwise
parses with `dayfirst=False` — preferring month before day on ambiguous
numeric dates — rendering ISO on success, and (c) returns any value that
fails to parse unchanged, never replacing a string by null. -/
theorem c6_date_rule (du : DUParse) (fts : FromTs) (df : DFrame) (col : String) :
    (df.isStrCol col = false → cleanColumnDate du fts df col = (df, false)) ∧
    (df.isStrCol col = true →
      cleanColumnDate du fts df col = (df.mapCol col (cleanerNormalizeDate du fts), true)) ∧
    (∀ s : String, s ≠ "" → isNumericStr s = true → parseEpochFloat s ≤ 4102444800 →
      cleanerNormalizeDate du fts (some (.s s))
        = some (.s (fts (parseEpochFloat s)).toISO)) ∧
    (∀ s : String, s ≠ "" →
      ¬ (isNumericStr s = true ∧ parseEpochFloat s ≤ 4102444800) →
      ∀ d, du false s = .ok d →
        cleanerNormalizeDate du fts (some (.s s)) = some (.s d.toISO)) ∧
    (∀ s : String, s ≠ "" →
      ¬ (isNumericStr s = true ∧ parseEpochFloat s ≤ 4102444800) →
      ∀ msg, du false s = .error msg →
        cleanerNormalizeDate du fts (some (.s s)) = some (.s s)) ∧
    (∀ s : String, ∃ t, cleanerNormalizeDate du fts (some (.s s)) = some (.s t)) := by
  refine ⟨?_, ?_, ?_, ?_, ?_, ?_⟩
  · intro h
    simp [cleanColumnDate, h]
  · intro h
    simp [cleanColumnDate, h]
  · intro s h0 hnum hle
    unfold cleanerNormalizeDate
    dsimp only
    rw [if_neg h0, if_pos ⟨hnum, parseEpochFloat_nonneg s, hle⟩]
  · intro s h0 hcond d hd
    unfold cleanerNormalizeDate
    dsimp only
    rw [if_neg h0, if_neg (fun hund => hcond ⟨hund.1, hund.2.2⟩), hd]
  · intro s h0 hcond msg hmsg
    unfold cleanerNormalizeDate
    dsimp only
    rw [if_neg h0, if_neg (fun hund => hcond ⟨hund.1, hund.2.2⟩), hmsg]
  · intro s
    unfold cleanerNormalizeDate
    dsimp only
    by_cases h0 : s = ""
    · rw [if_pos h0]
      exact ⟨s, rfl⟩
    · rw [if_neg h0]
      by_cases h1 : (isNumericStr s = true) ∧ 0 ≤ parseEpochFloat s ∧
          parseEpochFloat s ≤ 4102444800
      · rw [if_pos h1]
        exact ⟨_, rfl⟩
      · rw [if_neg h1]
        cases hdu : du false s with
        | ok d => exact ⟨_, rfl⟩
        | error msg => exact ⟨s, rfl⟩

/-- A timestamp oracle for the fixture epoch value (1.7e9 seconds is
2023-11-14 UTC). -/
def wFts6 : FromTs := fun _ => ⟨2023, 11, 14⟩

/-- Witness for claim C6 at a concrete input: the purely numeric value
`"1700000000"` lies in the epoch range and is converted to the calendar
date. -/
theorem c6_date_rule_witness :
    (("1700000000" : String) ≠ "" ∧ isNumericStr "1700000000" = true ∧
     parseEpochFloat "1700000000" ≤ 4102444800) ∧
    cleanerNormalizeDate duStub wFts6 (some (.s "1700000000"))
      = some (.s (wFts6 (parseEpochFloat "1700000000")).toISO) :=
  ⟨⟨by decide, by decide, by decide⟩,
   (c6_date_rule duStub wFts6 ⟨[], []⟩ "d").2.2.1 "1700000000"
     (by decide) (by decide) (by decide)⟩

end SystemZero
